import Mathlib

/-!
Verification development for the descriptor engine of the
`descriptors` repository (src/index.ts).

The repository source under verification is `src/index.ts`: the
descriptor grammar dispatcher (constructor branches for addr / pk / pkh /
sh(wpkh) / wpkh / sh(wsh(ms)) / sh(ms) / wsh(ms)), the `evaluate`
pre-processing step (checksum validation and wildcard substitution),
resource-limit enforcement, and the accessor / satisfaction entry points.

The helper modules imported by `src/index.ts` (`./checksum`, `./re`,
`./miniscript`, `./keyExpressions`) are part of the repository but are
not included under `src/`; where a claim depends on them the
corresponding definitions below are modelled from the specification
(each such definition carries a doc comment starting with
`Modelled from the spec:`).  External collaborators (elliptic-curve
backend, hash functions, script templates of bitcoinjs-lib) are
abstracted as parameters, as the specification declares them out of
scope.
-/

set_option maxRecDepth 10000

namespace Desc

/-! ## Checksum engine -/

/-- Modelled from the spec: the checksum engine of `./checksum`
(`DescriptorChecksum`), a "polynomial rolling checksum over a restricted
input alphabet, mapping each character through one of several group
tables into symbol codes that feed a fixed-generator-polynomial
accumulator; final state expands to 8 characters from a 32-symbol
charset", required to be byte-exact with the reference descriptor
checksum algorithm (BIP 380).  This is the reference input alphabet. -/
def inputCharset : List Char :=
  ("0123456789()[],'/*abcdefgh@:$%\x7b\x7dIJKLMNOPQRSTUVWXYZ&+-.;<=>?!^_|~ijklmnopqrstuvwxyzABCDEFGH`#\"\\ ".toList)

/-- The 32-symbol charset from which the 8 checksum characters are drawn. -/
def checksumCharset : List Char :=
  ("qpzry9x8gf2tvdw0s3jn54khce6mua7l".toList)

/-- Feedback of the fixed generator polynomial: XOR of the generator
words selected by the top five bits of the accumulator. -/
def gentaps (t : Nat) : Nat :=
  (if t.testBit 0 then 0xf5dee51989 else 0) ^^^
  (if t.testBit 1 then 0xa9fdca3312 else 0) ^^^
  (if t.testBit 2 then 0x1bab10e32d else 0) ^^^
  (if t.testBit 3 then 0x3706b1677a else 0) ^^^
  (if t.testBit 4 then 0x644d626ffd else 0)

/-- One step of the checksum accumulator on a five-bit symbol. -/
def polymodStep (c v : Nat) : Nat :=
  (((c &&& 0x7ffffffff) <<< 5) ^^^ v) ^^^ gentaps (c >>> 35)

/-- Run the accumulator over a list of symbols from a given state. -/
def polymodRun (s : Nat) (l : List Nat) : Nat :=
  l.foldl polymodStep s

/-- Index of a character in the input alphabet (alphabet length if absent). -/
def charIdx (c : Char) : Nat :=
  List.indexOf c inputCharset

/-- Low five bits of a character's alphabet index: its immediate symbol. -/
def lowSym (c : Char) : Nat := charIdx c &&& 31

/-- High bits of a character's alphabet index: its group-table value. -/
def hiSym (c : Char) : Nat := charIdx c >>> 5

/-- Symbol expansion: each character contributes its low-bit symbol
immediately, and each group of three characters contributes one combined
group symbol; a trailing group of one or two characters contributes a
shorter combined symbol. -/
def expandSyms : List Char → List Nat
  | [] => []
  | [c] => [lowSym c, hiSym c]
  | [c1, c2] => [lowSym c1, lowSym c2, hiSym c1 * 3 + hiSym c2]
  | c1 :: c2 :: c3 :: rest =>
      lowSym c1 :: lowSym c2 :: lowSym c3 ::
        (hiSym c1 * 9 + hiSym c2 * 3 + hiSym c3) :: expandSyms rest

/-- Eight zero symbols appended before extracting the checksum. -/
def pad8 : List Nat := List.replicate 8 0

/-- The 40-bit checksum word of a descriptor body. -/
def checksumWord (s : List Char) : Nat :=
  polymodRun 1 (expandSyms s ++ pad8) ^^^ 1

/-- The eight checksum characters of a descriptor body. -/
def checksumChars (s : List Char) : List Char :=
  (List.range 8).map
    (fun j => checksumCharset.getD ((checksumWord s >>> (5 * (7 - j))) &&& 31) 'q')

/-- Modelled from the spec: `DescriptorChecksum` is total over
valid-alphabet input; a body containing a character outside the alphabet
has no checksum. -/
def descsumCreate (s : List Char) : Option (List Char) :=
  if ∀ c ∈ s, c ∈ inputCharset then some (checksumChars s) else none

/-! ## The `evaluate` pre-processing step (src/index.ts lines 66-108) -/

/-- Error taxonomy of the descriptor engine (spec section 7). -/
inductive DescErr : Type
  | missingChecksum
  | checksumMismatch
  | missingIndex
  | invalidIndex
  | invalidAddress
  | resourceLimit
  | miniscriptInShDisallowed
  | noMiniscript
  | unsatisfiable
  | locktimeAlreadySet
  | seqLocktimeConflict
  deriving DecidableEq

/-- Modelled from the spec: the anchored trailing-checksum pattern of
`./re` (`reChecksum`): a `#` followed by exactly eight characters of the
32-symbol checksum charset, at the end of the expression. -/
def splitChecksumSuffix (expr : List Char) : Option (List Char × List Char) :=
  if 9 ≤ expr.length then
    match expr.drop (expr.length - 9) with
    | c0 :: cs =>
        if c0 = '#' ∧ ∀ c ∈ cs, c ∈ checksumCharset then
          some (expr.take (expr.length - 9), cs)
        else none
    | [] => none
  else none

/-- Checksum phase of `evaluate` (src/index.ts lines 75-90): if a
trailing checksum is present it is stripped and must match the
recomputed checksum of the body; if absent and `checksumRequired`, the
evaluation throws. -/
def evalChecksum (expr : List Char) (checksumRequired : Bool) :
    Except DescErr (List Char) :=
  match splitChecksumSuffix expr with
  | none => if checksumRequired then .error .missingChecksum else .ok expr
  | some (body, cs) =>
      match descsumCreate body with
      | none => .error .checksumMismatch
      | some cs2 => if cs2 = cs then .ok body else .error .checksumMismatch

/-- A JavaScript number as far as `evaluate` inspects it: either an
integer value or a non-integer (`Number.isInteger` fails). -/
inductive JSNum : Type
  | intVal (i : Int)
  | nonInt
  deriving DecidableEq

/-- Decimal digits of a natural number (JavaScript `index.toString()`). -/
def natDigits (n : Nat) : List Char := (Nat.repr n).toList

/-- Per-character wildcard substitution: `*` becomes the digit string,
any other character stays itself. -/
def starSub (d : List Char) (c : Char) : List Char :=
  if c = '*' then d else [c]

/-- The `replaceAll('*', index.toString())` call of src/index.ts line
105, as a character-level map-and-flatten. -/
def replaceAllStar (s : List Char) (d : List Char) : List Char :=
  (s.map (starSub d)).flatten

/-- The `evaluate` function of src/index.ts lines 66-108: validate and
strip the checksum, then particularize a range descriptor at the given
index (all wildcards in lockstep), rejecting a missing, non-integer or
negative index. -/
def evaluateM (expr : List Char) (checksumRequired : Bool)
    (index : Option JSNum) : Except DescErr (List Char) := do
  let body ← evalChecksum expr checksumRequired
  if body.contains '*' then
    match index with
    | none => .error .missingIndex
    | some .nonInt => .error .invalidIndex
    | some (.intVal i) =>
        if i < 0 then .error .invalidIndex
        else .ok (replaceAllStar body (natDigits i.toNat))
  else .ok body

/-! ## Miniscript core

Modelled from the spec: the miniscript expander / compiler / satisfier of
`./miniscript` (spec sections 4.3-4.5) over a representative core of
fragments.  Keys are placeholders `@0, @1, ...` resolved through an
expansion map `em : Nat -> List Nat` giving each placeholder's public-key
bytes. `and_v x y` denotes the fragment `and_v(v:x, y)` with the `v`
wrapper compiled as an explicit VERIFY. -/

/-- Miniscript abstract syntax over placeholder keys. -/
inductive MS : Type
  | pk (k : Nat)
  | older (n : Nat)
  | after (n : Nat)
  | sha256f (h : List Nat)
  | multi (m : Nat) (keys : List Nat)
  | and_v (x y : MS)
  | or_i (x y : MS)
  deriving DecidableEq

/-- Script operations produced by the miniscript compiler. -/
inductive Op : Type
  | pushData (d : List Nat)
  | pushNum (n : Nat)
  | opVerify
  | opCheckSig
  | opCSV
  | opCLTV
  | opSize
  | opEqual
  | opEqualVerify
  | opSha256
  | opIf
  | opElse
  | opEndIf
  | opCheckMultiSig
  deriving DecidableEq

/-- Little-endian base-256 digits, with an explicit structural fuel
(the fuel is always at least the number, so it never runs out). -/
def natLEAux : Nat → Nat → List Nat
  | _, 0 => []
  | 0, _ + 1 => []
  | fuel + 1, n + 1 => ((n + 1) % 256) :: natLEAux fuel ((n + 1) / 256)

/-- Little-endian base-256 digits of a natural number. -/
def natLE (n : Nat) : List Nat := natLEAux n n

/-- Number encoding for script pushes (minimal little endian, with a
zero byte appended when the sign bit of the top byte is set). -/
def encodeNum (n : Nat) : List Nat :=
  match (natLE n).getLast? with
  | none => []
  | some last => if 128 ≤ last then natLE n ++ [0] else natLE n

/-- Little-endian byte decoding used by number-consuming opcodes. -/
def fromLE : List Nat → Nat
  | [] => 0
  | b :: bs => b + 256 * fromLE bs

/-- Encoded byte size of one operation (data pushes in the sizes this
compiler emits use a one-byte length prefix; numbers 0..16 use the
one-byte small-number opcodes). -/
def encodeOp : Op → List Nat
  | .pushData d => d.length :: d
  | .pushNum n =>
      if n = 0 then [0x00]
      else if n ≤ 16 then [0x50 + n]
      else (encodeNum n).length :: encodeNum n
  | .opVerify => [0x69]
  | .opCheckSig => [0xac]
  | .opCSV => [0xb2]
  | .opCLTV => [0xb1]
  | .opSize => [0x82]
  | .opEqual => [0x87]
  | .opEqualVerify => [0x88]
  | .opSha256 => [0xa8]
  | .opIf => [0x63]
  | .opElse => [0x67]
  | .opEndIf => [0x68]
  | .opCheckMultiSig => [0xae]

/-- Serialized script bytes. -/
def encodeScript (ops : List Op) : List Nat :=
  (ops.map encodeOp).flatten

/-- Whether an operation decompiles to an opcode above OP_16
(src/index.ts `countNonPushOnlyOPs`: data pushes decompile to buffers and
never compare above OP_16; small-number pushes are at most 0x60). -/
def isNonPushOp : Op → Bool
  | .pushData _ => false
  | .pushNum _ => false
  | _ => true

/-- The `countNonPushOnlyOPs` check of src/index.ts lines 56-60. -/
def countNonPushOps (ops : List Op) : Nat :=
  (ops.filter isNonPushOp).length

/-- Whether an operation is unconditional (not IF/ELSE/ENDIF): such
operations are no-ops while the execution-condition stack has a false. -/
def isNonCond : Op → Bool
  | .opIf => false
  | .opElse => false
  | .opEndIf => false
  | _ => true

/-- Modelled from the spec: recursive fragment-to-script compilation of
`miniscript2Script` (spec section 4.4), canonical encodings:
`pk` is `<key> CHECKSIG`, `older`/`after` are `<n> CSV`/`<n> CLTV`,
`sha256` is `SIZE <32> EQUALVERIFY SHA256 <h> EQUAL`, `multi` is
`<m> <key1> ... <keyn> <n> CHECKMULTISIG`, `and_v(v:x,y)` is
`[x] VERIFY [y]`, `or_i` is `IF [x] ELSE [y] ENDIF`. -/
def compileMS (em : Nat → List Nat) : MS → List Op
  | .pk k => [.pushData (em k), .opCheckSig]
  | .older n => [.pushNum n, .opCSV]
  | .after n => [.pushNum n, .opCLTV]
  | .sha256f h => [.opSize, .pushNum 32, .opEqualVerify, .opSha256, .pushData h, .opEqual]
  | .multi m keys =>
      .pushNum m :: (keys.map (fun k => Op.pushData (em k))) ++
        [.pushNum keys.length, .opCheckMultiSig]
  | .and_v x y => compileMS em x ++ [.opVerify] ++ compileMS em y
  | .or_i x y => .opIf :: compileMS em x ++ [.opElse] ++ compileMS em y ++ [.opEndIf]

/-- Textual rendering of a fragment (the expanded miniscript text whose
leading characters the `sh(MINISCRIPT)` whitelist test inspects). -/
def msText : MS → List Char
  | .pk k => ("pk(@".toList) ++ natDigits k ++ [')']
  | .older n => ("older(".toList) ++ natDigits n ++ [')']
  | .after n => ("after(".toList) ++ natDigits n ++ [')']
  | .sha256f _ => ("sha256(...)".toList)
  | .multi m keys =>
      ("multi(".toList) ++ natDigits m ++
        (keys.map (fun k => (",@".toList) ++ natDigits k)).flatten ++ [')']
  | .and_v _ _ => ("and_v(...)".toList)
  | .or_i _ _ => ("or_i(...)".toList)

/-- The whitelist test of src/index.ts lines 412-424: the miniscript
text must start with one of the eight allowed top-level fragments. -/
def shWhitelistPass (t : List Char) : Bool :=
  t.take 3 = ("pk(".toList) || t.take 4 = ("pkh(".toList) ||
  t.take 5 = ("wpkh(".toList) || t.take 6 = ("combo(".toList) ||
  t.take 6 = ("multi(".toList) || t.take 12 = ("sortedmulti(".toList) ||
  t.take 8 = ("multi_a(".toList) || t.take 14 = ("sortedmulti_a(".toList)

/-! ## Script interpreter (reference semantics for claim C1) -/

/-- Transaction context the timelock opcodes consult. -/
structure ExecCtx : Type where
  nSequence : Nat
  nLockTime : Nat
  deriving DecidableEq

/-- Interpreter state: the data stack (head is the top) and the
execution-condition stack of open conditionals. -/
structure ExecState : Type where
  stack : List (List Nat)
  conds : List Bool
  deriving DecidableEq

/-- All open conditionals are taken: operations execute. -/
def fExecB (conds : List Bool) : Bool := conds.all (fun b => b)

/-- Consensus truthiness of a stack element (modulo the negative-zero
encoding, which none of the values in this development exercises). -/
def truthy (d : List Nat) : Bool := d.any (fun b => b ≠ 0)

/-- Greedy in-order signature/key matching of CHECKMULTISIG: each
signature is checked against the remaining keys from the top down. -/
def greedyMatch (validSig : List Nat → List Nat → Bool) :
    List (List Nat) → List (List Nat) → Bool
  | [], _ => true
  | _ :: _, [] => false
  | s :: ss, k :: ks =>
      if validSig k s then greedyMatch validSig ss ks
      else greedyMatch validSig (s :: ss) ks

/-- One interpreter step.  `validSig` abstracts signature verification
and `sha :` the SHA256 hash, both external collaborators. -/
def stepOp (validSig : List Nat → List Nat → Bool)
    (sha : List Nat → List Nat) (ctx : ExecCtx)
    (st : ExecState) (op : Op) : Except DescErr ExecState :=
  match op with
  | .opIf =>
      if fExecB st.conds then
        match st.stack with
        | v :: rest => .ok ⟨rest, truthy v :: st.conds⟩
        | [] => .error .unsatisfiable
      else .ok ⟨st.stack, false :: st.conds⟩
  | .opElse =>
      match st.conds with
      | c :: cs => .ok ⟨st.stack, (!c) :: cs⟩
      | [] => .error .unsatisfiable
  | .opEndIf =>
      match st.conds with
      | _ :: cs => .ok ⟨st.stack, cs⟩
      | [] => .error .unsatisfiable
  | other =>
      if fExecB st.conds then
        match other, st.stack with
        | .pushData d, s => .ok ⟨d :: s, st.conds⟩
        | .pushNum n, s => .ok ⟨encodeNum n :: s, st.conds⟩
        | .opVerify, v :: rest =>
            if truthy v then .ok ⟨rest, st.conds⟩ else .error .unsatisfiable
        | .opCheckSig, key :: sig :: rest =>
            .ok ⟨(if validSig key sig then [1] else []) :: rest, st.conds⟩
        | .opCSV, v :: rest =>
            if fromLE v ≤ ctx.nSequence then .ok ⟨v :: rest, st.conds⟩
            else .error .unsatisfiable
        | .opCLTV, v :: rest =>
            if fromLE v ≤ ctx.nLockTime then .ok ⟨v :: rest, st.conds⟩
            else .error .unsatisfiable
        | .opSize, v :: rest => .ok ⟨encodeNum v.length :: v :: rest, st.conds⟩
        | .opEqual, a :: b :: rest =>
            .ok ⟨(if a = b then [1] else []) :: rest, st.conds⟩
        | .opEqualVerify, a :: b :: rest =>
            if a = b then .ok ⟨rest, st.conds⟩ else .error .unsatisfiable
        | .opSha256, a :: rest => .ok ⟨sha a :: rest, st.conds⟩
        | .opCheckMultiSig, nB :: rest =>
            let n := fromLE nB
            if n ≤ rest.length then
              let keys := rest.take n
              match rest.drop n with
              | mB :: rest2 =>
                  let m := fromLE mB
                  if m ≤ rest2.length then
                    let sigs := rest2.take m
                    match rest2.drop m with
                    | _dummy :: rest3 =>
                        .ok ⟨(if greedyMatch validSig sigs keys then [1] else []) :: rest3,
                             st.conds⟩
                    | [] => .error .unsatisfiable
                  else .error .unsatisfiable
              | [] => .error .unsatisfiable
            else .error .unsatisfiable
        | _, _ => .error .unsatisfiable
      else .ok st

/-- Run a script operation list over a state. -/
def runOps (validSig : List Nat → List Nat → Bool)
    (sha : List Nat → List Nat) (ctx : ExecCtx)
    (st : ExecState) (ops : List Op) : Except DescErr ExecState :=
  ops.foldlM (stepOp validSig sha ctx) st

/-- Executing a witness against a script evaluates to success: no open
conditional remains and the final stack is exactly one truthy element. -/
def scriptSuccess (validSig : List Nat → List Nat → Bool)
    (sha : List Nat → List Nat) (ctx : ExecCtx)
    (ops : List Op) (wit : List (List Nat)) : Bool :=
  match runOps validSig sha ctx ⟨wit, []⟩ ops with
  | .ok st =>
      match st.stack, st.conds with
      | [v], [] => truthy v
      | _, _ => false
  | .error _ => false

/-! ## Miniscript satisfier (spec section 4.5) -/

/-- A partial signature as supplied to the satisfier. -/
structure PartialSigM : Type where
  pubkey : List Nat
  signature : List Nat
  deriving DecidableEq

/-- A preimage record as supplied to the constructor. -/
structure PreimageM : Type where
  digest : List Nat
  preimage : List Nat
  deriving DecidableEq

/-- Timelock constraints implied by a chosen satisfaction path. -/
structure TC : Type where
  nLockTime : Option Nat
  nSequence : Option Nat
  deriving DecidableEq

/-- Pointwise maximum of optional constraints. -/
def omax : Option Nat → Option Nat → Option Nat
  | none, b => b
  | some a, none => some a
  | some a, some b => some (max a b)

/-- Merge the constraints of two conjoined sub-satisfactions. -/
def tcMerge (a b : TC) : TC :=
  ⟨omax a.nLockTime b.nLockTime, omax a.nSequence b.nSequence⟩

/-- No timelock constraint. -/
def tcEmpty : TC := ⟨none, none⟩

/-- Witness weight used to pick the smaller of two available branches. -/
def witWeight (w : List (List Nat)) : Nat :=
  w.foldl (fun acc d => acc + d.length + 1) 0

/-- Signature lookup for a public key among the supplied signatures. -/
def sigForKey (sigs : List PartialSigM) (pub : List Nat) : Option (List Nat) :=
  (sigs.find? (fun ps => ps.pubkey = pub)).map (fun ps => ps.signature)

/-- Preimage lookup for a digest among the supplied preimages. -/
def preimageFor (pres : List PreimageM) (h : List Nat) : Option (List Nat) :=
  (pres.find? (fun pr => pr.digest = h)).map (fun pr => pr.preimage)

/-- Modelled from the spec: the recursive satisfaction search of
`satisfyMiniscript` (spec section 4.5) over the fragment core: per
fragment the witness stack (head = top of stack) making it evaluate
true with the supplied material, together with the implied timelock
constraints; `none` is the "incomplete" outcome.  Of two available
`or_i` branches the smaller-weight one is chosen. -/
def satMS (em : Nat → List Nat) (sigs : List PartialSigM)
    (pres : List PreimageM) : MS → Option (List (List Nat) × TC)
  | .pk k => (sigForKey sigs (em k)).map (fun s => ([s], tcEmpty))
  | .older n => some ([], ⟨none, some n⟩)
  | .after n => some ([], ⟨some n, none⟩)
  | .sha256f h => (preimageFor pres h).map (fun p => ([p], tcEmpty))
  | .and_v x y =>
      match satMS em sigs pres x, satMS em sigs pres y with
      | some (wx, tx), some (wy, ty) => some (wx ++ wy, tcMerge tx ty)
      | _, _ => none
  | .or_i x y =>
      match satMS em sigs pres x, satMS em sigs pres y with
      | some (wx, tx), some (wy, ty) =>
          if witWeight wx ≤ witWeight wy then some ([1] :: wx, tx)
          else some ([] :: wy, ty)
      | some (wx, tx), none => some ([1] :: wx, tx)
      | none, some (wy, ty) => some ([] :: wy, ty)
      | none, none => none
  | .multi m keys =>
      let avail := keys.filter (fun k => (sigForKey sigs (em k)).isSome)
      if m ≤ avail.length then
        let chosen := avail.take m
        some ((chosen.map (fun k => (sigForKey sigs (em k)).getD [])).reverse ++ [[]],
              tcEmpty)
      else none

/-- Structural validity of a fragment: timelock values are nonzero and
`multi` thresholds are sensible (the upstream type check the spec
section 4.4 assumes). -/
def MSvalidB : MS → Bool
  | .pk _ => true
  | .older n => 1 ≤ n
  | .after n => 1 ≤ n
  | .sha256f _ => true
  | .multi m keys => 1 ≤ m && m ≤ keys.length && keys.length ≤ 20
  | .and_v x y => MSvalidB x && MSvalidB y
  | .or_i x y => MSvalidB x && MSvalidB y

/-- Modelled from the spec: the `satisfyMiniscript` entry point.  When
`optionalTimeConstraints` is supplied, the chosen satisfaction must
remain consistent with them; an inconsistent or incomplete solution
yields no witness. -/
def satisfyMiniscriptM (em : Nat → List Nat) (sigs : List PartialSigM)
    (pres : List PreimageM) (ms : MS) (tcOpt : Option TC) :
    Option (List (List Nat) × TC) :=
  match satMS em sigs pres ms with
  | none => none
  | some (wit, tc) =>
      match tcOpt with
      | none => some (wit, tc)
      | some tc0 => if tc = tc0 then some (wit, tc) else none

/-! ## Address payment templates (claim C6) -/

/-- Output-script template tags tried by the `addr(...)` branch. -/
inductive PayTag : Type
  | p2pkhT
  | p2shT
  | p2wpkhT
  | p2wshT
  | p2trT
  deriving DecidableEq

/-- A recognized payment: the matched template and the output script. -/
structure AddrPayment : Type where
  tag : PayTag
  output : List Nat
  deriving DecidableEq

/-- P2PKH template recognizer: `OP_DUP OP_HASH160 <20> OP_EQUALVERIFY OP_CHECKSIG`. -/
def tryP2PKH (o : List Nat) : Option AddrPayment :=
  if o.length = 25 && o.take 3 = [0x76, 0xa9, 0x14] && o.drop 23 = [0x88, 0xac] then
    some ⟨.p2pkhT, o⟩
  else none

/-- P2SH template recognizer: `OP_HASH160 <20> OP_EQUAL`. -/
def tryP2SH (o : List Nat) : Option AddrPayment :=
  if o.length = 23 && o.take 2 = [0xa9, 0x14] && o.drop 22 = [0x87] then
    some ⟨.p2shT, o⟩
  else none

/-- P2WPKH template recognizer: version 0, 20-byte program. -/
def tryP2WPKH (o : List Nat) : Option AddrPayment :=
  if o.length = 22 && o.take 2 = [0x00, 0x14] then some ⟨.p2wpkhT, o⟩ else none

/-- P2WSH template recognizer: version 0, 32-byte program. -/
def tryP2WSH (o : List Nat) : Option AddrPayment :=
  if o.length = 34 && o.take 2 = [0x00, 0x20] then some ⟨.p2wshT, o⟩ else none

/-- P2TR template recognizer: version 1, 32-byte program. -/
def tryP2TR (o : List Nat) : Option AddrPayment :=
  if o.length = 34 && o.take 2 = [0x51, 0x20] then some ⟨.p2trT, o⟩ else none

/-- A failed attempt keeps the previously assigned payment. -/
def overwrite (att prev : Option AddrPayment) : Option AddrPayment :=
  match att with
  | some x => some x
  | none => prev

/-- The sequential template attempts of src/index.ts lines 249-263: each
try/catch overwrites `payment` only when the template does not fail, so
the last non-failing attempt wins. -/
def addrLastWins (o : List Nat) : Option AddrPayment :=
  overwrite (tryP2TR o)
    (overwrite (tryP2WSH o)
      (overwrite (tryP2WPKH o)
        (overwrite (tryP2SH o)
          (overwrite (tryP2PKH o) none))))

/-! ## Descriptor engine state and constructor dispatch -/

/-- The payment artifact stored by each constructor branch, with the
external bitcoinjs-lib template constructors abstracted as tags. -/
inductive PaymentM : Type
  | fromAddr (p : AddrPayment)
  | p2pkP (pubkey : List Nat)
  | p2pkhP (pubkey : List Nat)
  | shWpkhP (pubkey : List Nat)
  | wpkhP (pubkey : List Nat)
  | shWshP (witnessScript : List Nat)
  | shP (redeemScript : List Nat)
  | wshP (witnessScript : List Nat)
  deriving DecidableEq

/-- Immutable state of a constructed descriptor. -/
structure DescState : Type where
  payment : PaymentM
  miniscript : Option MS := none
  witnessScript : Option (List Nat) := none
  redeemScript : Option (List Nat) := none
  isSegwit : Option Bool := none
  preimages : List PreimageM := []
  signers : Option (List (List Nat)) := none
  deriving DecidableEq

/-- A descriptor expression after grammar dispatch: which of the nine
anchored productions matched, with key expressions resolved to
placeholders and addresses to their decoded output script (`none` when
address decoding failed). -/
inductive DescExpr : Type
  | addrE (decoded : Option (List Nat))
  | pkE (k : Nat)
  | pkhE (k : Nat)
  | shWpkhE (k : Nat)
  | wpkhE (k : Nat)
  | shWshE (ms : MS)
  | shE (ms : MS)
  | wshE (ms : MS)

/-- Whether the production carries a miniscript. -/
def isMiniscriptBearing : DescExpr → Bool
  | .shWshE _ => true
  | .shE _ => true
  | .wshE _ => true
  | _ => false

/-- The constructor dispatch of src/index.ts lines 233-499.  `sha` and
`h160` abstract the external SHA256 / HASH160 used by the script
templates; `em` is the key-expression resolution. -/
def construct (em : Nat → List Nat) (sha h160 : List Nat → List Nat)
    (allowMiniscriptInP2SH : Bool) (preimages : List PreimageM)
    (signers : Option (List (List Nat))) :
    DescExpr → Except DescErr DescState
  | .addrE none => .error .invalidAddress
  | .addrE (some o) =>
      match addrLastWins o with
      | none => .error .invalidAddress
      | some p => .ok { payment := .fromAddr p, preimages, signers }
  | .pkE k =>
      .ok { payment := .p2pkP (em k), isSegwit := some false, preimages, signers }
  | .pkhE k =>
      .ok { payment := .p2pkhP (em k), isSegwit := some false, preimages, signers }
  | .shWpkhE k =>
      .ok { payment := .shWpkhP (em k), isSegwit := some true,
            redeemScript := some (0x00 :: 0x14 :: h160 (em k)), preimages, signers }
  | .wpkhE k =>
      .ok { payment := .wpkhP (em k), isSegwit := some true, preimages, signers }
  | .shWshE ms =>
      let script := encodeScript (compileMS em ms)
      if 3600 < script.length then .error .resourceLimit
      else if 201 < countNonPushOps (compileMS em ms) then .error .resourceLimit
      else
        .ok { payment := .shWshP script, miniscript := some ms,
              witnessScript := some script,
              redeemScript := some (0x00 :: 0x20 :: sha script),
              isSegwit := some true, preimages, signers }
  | .shE ms =>
      if allowMiniscriptInP2SH = false ∧ shWhitelistPass (msText ms) = false then
        .error .miniscriptInShDisallowed
      else
        let script := encodeScript (compileMS em ms)
        if 520 < script.length then .error .resourceLimit
        else if 201 < countNonPushOps (compileMS em ms) then .error .resourceLimit
        else
          .ok { payment := .shP script, miniscript := some ms,
                redeemScript := some script, isSegwit := some false,
                preimages, signers }
  | .wshE ms =>
      let script := encodeScript (compileMS em ms)
      if 3600 < script.length then .error .resourceLimit
      else if 201 < countNonPushOps (compileMS em ms) then .error .resourceLimit
      else
        .ok { payment := .wshP script, miniscript := some ms,
              witnessScript := some script, isSegwit := some true,
              preimages, signers }

/-! ## Accessors and the satisfaction entry point -/

/-- All placeholder keys of a fragment in first-occurrence order
(the expansion map's value list). -/
def msKeys : MS → List Nat
  | .pk k => [k]
  | .older _ => []
  | .after _ => []
  | .sha256f _ => []
  | .multi _ keys => keys
  | .and_v x y => msKeys x ++ msKeys y
  | .or_i x y => msKeys x ++ msKeys y

/-- The constraints-only run of src/index.ts lines 506-546
(`#getTimeConstraints`): placeholder all-zero 64-byte signatures for
every signer (defaulting to every expansion-map key) are fed to the
satisfier just to read off the implied locktime/sequence pair. -/
def getTimeConstraintsM (em : Nat → List Nat) (st : DescState) :
    Except DescErr (Option TC) :=
  match st.miniscript with
  | none => .ok none
  | some ms =>
      let signerKeys := st.signers.getD ((msKeys ms).map em)
      let fakeSigs := signerKeys.map
        (fun pub => PartialSigM.mk pub (List.replicate 64 0))
      match satMS em fakeSigs st.preimages ms with
      | none => .error .unsatisfiable
      | some (_, tc) => .ok (some tc)

/-- `getSequence` of src/index.ts lines 592-594. -/
def getSequenceM (em : Nat → List Nat) (st : DescState) :
    Except DescErr (Option Nat) :=
  (getTimeConstraintsM em st).map (fun o => o.bind TC.nSequence)

/-- `getLockTime` of src/index.ts lines 595-597. -/
def getLockTimeM (em : Nat → List Nat) (st : DescState) :
    Except DescErr (Option Nat) :=
  (getTimeConstraintsM em st).map (fun o => o.bind TC.nLockTime)

/-- `getScriptSatisfaction` of src/index.ts lines 560-591: throws for a
descriptor without a miniscript; otherwise runs the satisfier with the
real signatures, passing the constraints-only locktime/sequence pair as
`timeConstraints` so that the actual solution still meets them. -/
def getScriptSatisfactionM (em : Nat → List Nat) (st : DescState)
    (sigs : List PartialSigM) : Except DescErr (List (List Nat)) := do
  match st.miniscript with
  | none => .error .noMiniscript
  | some ms =>
      let lk ← getLockTimeM em st
      let sq ← getSequenceM em st
      match satisfyMiniscriptM em sigs st.preimages ms (some ⟨lk, sq⟩) with
      | none => .error .unsatisfiable
      | some (wit, _) => .ok wit

/-- The locktime/sequence handling of `updatePsbt` (src/index.ts lines
615-664), on the relevant inputs: the derived locktime and sequence and
the PSBT's current locktime.  Returns the locktime set on the PSBT and
the sequence attached to the new input. -/
def updatePsbtSeq (txLockTime : Option Nat) (derivedSeq : Option Nat)
    (psbtLocktime : Option Nat) : Except DescErr (Option Nat × Option Nat) :=
  match txLockTime with
  | none => .ok (psbtLocktime, derivedSeq)
  | some lt =>
      match psbtLocktime with
      | some l =>
          if l ≠ 0 then .error .locktimeAlreadySet
          else
            match derivedSeq with
            | none => .ok (some lt, some 0xfffffffe)
            | some s =>
                if 0xfffffffe < s then .error .seqLocktimeConflict
                else .ok (some lt, some s)
      | none =>
          match derivedSeq with
          | none => .ok (some lt, some 0xfffffffe)
          | some s =>
              if 0xfffffffe < s then .error .seqLocktimeConflict
              else .ok (some lt, some s)

/-- `updatePsbt` composed with the accessor runs it relies on. -/
def updatePsbtM (em : Nat → List Nat) (st : DescState)
    (psbtLocktime : Option Nat) : Except DescErr (Option Nat × Option Nat) := do
  let lk ← getLockTimeM em st
  let sq ← getSequenceM em st
  updatePsbtSeq lk sq psbtLocktime

/-- Chain of `or_i` fragments used to exhibit an opcode-dense script. -/
def orChain : Nat → MS
  | 0 => .older 1
  | n + 1 => .or_i (.older 1) (orChain n)

/-- A miniscript whose compiled script stays within 520 bytes but
exceeds 201 non-push opcodes. -/
def bigMS : MS := orChain 51

/-- A trivial expansion map for key-free examples. -/
def emZero : Nat → List Nat := fun _ => []

/-! ## Checksum lemmas -/

theorem shiftRight_xor_distrib (a b k : Nat) :
    (a ^^^ b) >>> k = (a >>> k) ^^^ (b >>> k) := by
  apply Nat.eq_of_testBit_eq
  intro i
  simp [Nat.testBit_shiftRight, Nat.testBit_xor]

theorem shiftLeft_xor_distrib (a b k : Nat) :
    (a ^^^ b) <<< k = (a <<< k) ^^^ (b <<< k) := by
  apply Nat.eq_of_testBit_eq
  intro i
  by_cases h : k ≤ i <;>
    simp [Nat.testBit_shiftLeft, Nat.testBit_xor, h, ge_iff_le]

theorem xor_left_comm_nat (a b c : Nat) : a ^^^ (b ^^^ c) = b ^^^ (a ^^^ c) := by
  rw [← Nat.xor_assoc, Nat.xor_comm a b, Nat.xor_assoc]

theorem mask35_eq_mod (a : Nat) : a &&& 0x7ffffffff = a % 2 ^ 35 := by
  have h : (0x7ffffffff : Nat) = 2 ^ 35 - 1 := by norm_num
  rw [h, Nat.and_pow_two_sub_one_eq_mod]

theorem top_eq_of_xor_small {a b d : Nat} (h : a ^^^ b = d) (hd : d < 2 ^ 35) :
    a >>> 35 = b >>> 35 := by
  have h1 : (a ^^^ b) >>> 35 = 0 := by
    rw [h, Nat.shiftRight_eq_div_pow]
    exact Nat.div_eq_of_lt hd
  rw [shiftRight_xor_distrib] at h1
  exact Nat.xor_eq_zero.mp h1

theorem polymodStep_xor {a b d : Nat} (h : a ^^^ b = d) (hd : d < 2 ^ 35)
    (v w : Nat) : polymodStep a v ^^^ polymodStep b w = (d <<< 5) ^^^ (v ^^^ w) := by
  have htop := top_eq_of_xor_small h hd
  have hAB : ((a &&& 0x7ffffffff) <<< 5) ^^^ ((b &&& 0x7ffffffff) <<< 5) = d <<< 5 := by
    rw [← shiftLeft_xor_distrib, ← Nat.and_xor_distrib_right, h, mask35_eq_mod,
      Nat.mod_eq_of_lt hd]
  unfold polymodStep
  rw [htop]
  rw [← hAB]
  simp only [Nat.xor_assoc, Nat.xor_comm, xor_left_comm_nat, Nat.xor_self,
    Nat.xor_zero, Nat.zero_xor, Nat.xor_cancel_left]

theorem gentaps_bound (t : Nat) : gentaps t < 2 ^ 40 := by
  unfold gentaps
  apply Nat.xor_lt_two_pow
  apply Nat.xor_lt_two_pow
  apply Nat.xor_lt_two_pow
  apply Nat.xor_lt_two_pow
  all_goals split <;> norm_num

theorem polymodStep_bound (c : Nat) {v : Nat} (hv : v < 2 ^ 40) :
    polymodStep c v < 2 ^ 40 := by
  unfold polymodStep
  apply Nat.xor_lt_two_pow _ (gentaps_bound _)
  apply Nat.xor_lt_two_pow _ hv
  rw [Nat.shiftLeft_eq, mask35_eq_mod]
  calc c % 2 ^ 35 * 2 ^ 5 < 2 ^ 35 * 2 ^ 5 := by
        have hm : c % 2 ^ 35 < 2 ^ 35 := Nat.mod_lt _ (by norm_num)
        omega
    _ = 2 ^ 40 := by norm_num

theorem and31_shiftLeft5 (x : Nat) : (x <<< 5) &&& 31 = 0 := by
  have h : (31 : Nat) = 2 ^ 5 - 1 := by norm_num
  rw [h, Nat.and_pow_two_sub_one_eq_mod, Nat.shiftLeft_eq, Nat.mul_mod_left]

theorem gentaps_low_inj :
    ∀ t < 32, ∀ u < 32, gentaps t &&& 31 = gentaps u &&& 31 → t = u := by decide

theorem polymodStep_inj {a b : Nat} (v : Nat) (ha : a < 2 ^ 40) (hb : b < 2 ^ 40)
    (hne : a ≠ b) : polymodStep a v ≠ polymodStep b v := by
  intro heq
  apply hne
  have htopa : a >>> 35 < 32 := by
    rw [Nat.shiftRight_eq_div_pow]
    exact Nat.div_lt_of_lt_mul (by calc a < 2 ^ 40 := ha
                                      _ = 2 ^ 35 * 32 := by norm_num)
  have htopb : b >>> 35 < 32 := by
    rw [Nat.shiftRight_eq_div_pow]
    exact Nat.div_lt_of_lt_mul (by calc b < 2 ^ 40 := hb
                                      _ = 2 ^ 35 * 32 := by norm_num)
  have h31 : polymodStep a v &&& 31 = polymodStep b v &&& 31 := by rw [heq]
  unfold polymodStep at h31
  rw [Nat.and_xor_distrib_right, Nat.and_xor_distrib_right, and31_shiftLeft5,
    Nat.and_xor_distrib_right, Nat.and_xor_distrib_right, and31_shiftLeft5] at h31
  simp only [Nat.zero_xor] at h31
  have htaps : gentaps (a >>> 35) &&& 31 = gentaps (b >>> 35) &&& 31 := by
    have h1 := congrArg (fun z => (v &&& 31) ^^^ z) h31
    simpa only [Nat.xor_cancel_left] using h1
  have htop : a >>> 35 = b >>> 35 :=
    gentaps_low_inj _ htopa _ htopb htaps
  have heq2 : ((a &&& 0x7ffffffff) <<< 5) ^^^ v = ((b &&& 0x7ffffffff) <<< 5) ^^^ v := by
    unfold polymodStep at heq
    rw [htop] at heq
    have h2 := congrArg (fun z => z ^^^ gentaps (b >>> 35)) heq
    simpa only [Nat.xor_assoc, Nat.xor_self, Nat.xor_zero] using h2
  have heq3 : (a &&& 0x7ffffffff) <<< 5 = (b &&& 0x7ffffffff) <<< 5 := by
    have h3 := congrArg (fun z => z ^^^ v) heq2
    simpa only [Nat.xor_assoc, Nat.xor_self, Nat.xor_zero] using h3
  have heq4 : a % 2 ^ 35 = b % 2 ^ 35 := by
    rw [Nat.shiftLeft_eq, Nat.shiftLeft_eq, mask35_eq_mod, mask35_eq_mod] at heq3
    exact Nat.eq_of_mul_eq_mul_right (by norm_num) heq3
  have hda : 2 ^ 35 * (a / 2 ^ 35) + a % 2 ^ 35 = a := Nat.div_add_mod a (2 ^ 35)
  have hdb : 2 ^ 35 * (b / 2 ^ 35) + b % 2 ^ 35 = b := Nat.div_add_mod b (2 ^ 35)
  have htopd : a / 2 ^ 35 = b / 2 ^ 35 := by
    rw [Nat.shiftRight_eq_div_pow, Nat.shiftRight_eq_div_pow] at htop
    exact htop
  omega

theorem polymodRun_ne (l : List Nat) :
    ∀ a b, a ≠ b → a < 2 ^ 40 → b < 2 ^ 40 → (∀ v ∈ l, v < 2 ^ 40) →
      polymodRun a l ≠ polymodRun b l := by
  induction l with
  | nil => intro a b h _ _ _; simpa [polymodRun] using h
  | cons v t ih =>
      intro a b h ha hb hv
      have hstep : polymodRun a (v :: t) = polymodRun (polymodStep a v) t := rfl
      have hstep2 : polymodRun b (v :: t) = polymodRun (polymodStep b v) t := rfl
      rw [hstep, hstep2]
      have hv0 : v < 2 ^ 40 := hv v (List.mem_cons_self _ _)
      exact ih _ _ (polymodStep_inj v ha hb h) (polymodStep_bound _ hv0)
        (polymodStep_bound _ hv0) (fun w hw => hv w (List.mem_cons_of_mem _ hw))

theorem polymodRun_bound (l : List Nat) :
    ∀ s, s < 2 ^ 40 → (∀ v ∈ l, v < 2 ^ 40) → polymodRun s l < 2 ^ 40 := by
  induction l with
  | nil => intro s hs _; simpa [polymodRun] using hs
  | cons v t ih =>
      intro s hs hv
      have hstep : polymodRun s (v :: t) = polymodRun (polymodStep s v) t := rfl
      rw [hstep]
      exact ih _ (polymodStep_bound _ (hv v (List.mem_cons_self _ _)))
        (fun w hw => hv w (List.mem_cons_of_mem _ hw))

theorem polymodRun_append (s : Nat) (p q : List Nat) :
    polymodRun s (p ++ q) = polymodRun (polymodRun s p) q :=
  List.foldl_append _ _ _ _

theorem polymodRun_cons (s v : Nat) (l : List Nat) :
    polymodRun s (v :: l) = polymodRun (polymodStep s v) l := rfl

theorem inputCharset_length : inputCharset.length = 95 := by decide

theorem charIdx_le (c : Char) : charIdx c ≤ 95 := by
  have h := List.indexOf_le_length (a := c) (l := inputCharset)
  rwa [inputCharset_length] at h

theorem lowSym_lt (c : Char) : lowSym c < 32 := by
  have h : charIdx c &&& 31 ≤ 31 := Nat.and_le_right
  unfold lowSym
  omega

theorem hiSym_le (c : Char) : hiSym c ≤ 2 := by
  unfold hiSym
  rw [Nat.shiftRight_eq_div_pow]
  have h := charIdx_le c
  omega

theorem expandSyms_lt (s : List Char) : ∀ v ∈ expandSyms s, v < 32 := by
  match s with
  | [] => intro v hv; simp [expandSyms] at hv
  | [c] =>
      intro v hv
      simp only [expandSyms, List.mem_cons, List.mem_singleton,
        List.not_mem_nil, or_false] at hv
      rcases hv with h | h
      · exact h ▸ lowSym_lt c
      · have := hiSym_le c; omega
  | [c1, c2] =>
      intro v hv
      simp only [expandSyms, List.mem_cons, List.not_mem_nil, or_false] at hv
      rcases hv with h | h | h
      · exact h ▸ lowSym_lt c1
      · exact h ▸ lowSym_lt c2
      · have h1 := hiSym_le c1; have h2 := hiSym_le c2; omega
  | c1 :: c2 :: c3 :: rest =>
      intro v hv
      simp only [expandSyms, List.mem_cons] at hv
      rcases hv with h | h | h | h | h
      · exact h ▸ lowSym_lt c1
      · exact h ▸ lowSym_lt c2
      · exact h ▸ lowSym_lt c3
      · have h1 := hiSym_le c1; have h2 := hiSym_le c2; have h3 := hiSym_le c3
        omega
      · exact expandSyms_lt rest v h

theorem tail40 (s : List Char) : ∀ v ∈ expandSyms s ++ pad8, v < 2 ^ 40 := by
  intro v hv
  rcases List.mem_append.mp hv with h | h
  · have := expandSyms_lt s v h; omega
  · have : v = 0 := List.eq_of_mem_replicate h
    omega

theorem charIdx_recon (c : Char) : charIdx c = 32 * hiSym c + lowSym c := by
  have h31 : lowSym c = charIdx c % 2 ^ 5 := by
    unfold lowSym
    have h : (31 : Nat) = 2 ^ 5 - 1 := by norm_num
    rw [h, Nat.and_pow_two_sub_one_eq_mod]
  have hdiv : hiSym c = charIdx c / 2 ^ 5 := by
    unfold hiSym
    rw [Nat.shiftRight_eq_div_pow]
  have hm : charIdx c % 2 ^ 5 = charIdx c % 32 := by norm_num
  have hd : charIdx c / 2 ^ 5 = charIdx c / 32 := by norm_num
  rw [h31, hdiv, hm, hd]
  omega

theorem low_hi_ne {x y : Char} (hxy : x ≠ y) (hx : x ∈ inputCharset)
    (hy : y ∈ inputCharset) : lowSym x ≠ lowSym y ∨ hiSym x ≠ hiSym y := by
  by_contra hcon
  push_neg at hcon
  apply hxy
  have hidx : charIdx x = charIdx y := by
    rw [charIdx_recon, charIdx_recon, hcon.1, hcon.2]
  exact (List.indexOf_inj hx hy).mp hidx

theorem xor_lt32 {a b : Nat} (ha : a < 32) (hb : b < 32) : a ^^^ b < 32 := by
  have h : (32 : Nat) = 2 ^ 5 := by norm_num
  rw [h] at ha hb ⊢
  exact Nat.xor_lt_two_pow ha hb

theorem xor_shift_small_ne {d g : Nat} (hd : d ≠ 0) (hg : g < 32) :
    (d <<< 5) ^^^ g ≠ 0 := by
  intro h0
  apply hd
  have h5 : ((d <<< 5) ^^^ g) >>> 5 = 0 := by rw [h0]; rfl
  rw [shiftRight_xor_distrib] at h5
  have hds : (d <<< 5) >>> 5 = d := by
    rw [Nat.shiftLeft_eq, Nat.shiftRight_eq_div_pow]
    exact Nat.mul_div_cancel d (by norm_num)
  have hgs : g >>> 5 = 0 := by
    rw [Nat.shiftRight_eq_div_pow]
    exact Nat.div_eq_of_lt (by omega)
  rw [hds, hgs, Nat.xor_zero] at h5
  exact h5

theorem ne_of_xor_ne {a b : Nat} (h : a ^^^ b ≠ 0) : a ≠ b := by
  intro heq
  exact h (heq ▸ Nat.xor_self a)

theorem mid_chain (mid : List Nat) (hmlen : mid.length ≤ 2) (a b d : Nat)
    (h : a ^^^ b = d) (hd : d < 2 ^ 25) :
    polymodRun a mid ^^^ polymodRun b mid = d * 32 ^ mid.length := by
  match mid with
  | [] => simpa [polymodRun] using h
  | [m] =>
      show polymodStep a m ^^^ polymodStep b m = d * 32 ^ 1
      rw [polymodStep_xor h (by omega) m m, Nat.xor_self, Nat.xor_zero]
      norm_num [Nat.shiftLeft_eq]
  | [m1, m2] =>
      have h1 : polymodStep a m1 ^^^ polymodStep b m1 = d * 32 := by
        rw [polymodStep_xor h (by omega) m1 m1, Nat.xor_self, Nat.xor_zero]
        norm_num [Nat.shiftLeft_eq]
      have h2 : polymodStep (polymodStep a m1) m2 ^^^
          polymodStep (polymodStep b m1) m2 = d * 32 * 32 := by
        rw [polymodStep_xor h1 (by omega) m2 m2, Nat.xor_self, Nat.xor_zero]
        norm_num [Nat.shiftLeft_eq]
      show polymodStep (polymodStep a m1) m2 ^^^
        polymodStep (polymodStep b m1) m2 = d * 32 ^ 2
      rw [h2]
      ring
  | _ :: _ :: _ :: _ => simp at hmlen

theorem diverge_block (t : Nat) (_ht : t < 2 ^ 40) (lx ly : Nat)
    (hlx : lx < 32) (hly : ly < 32) (mid : List Nat)
    (_hmid : ∀ w ∈ mid, w < 32) (hmlen : mid.length ≤ 2)
    (gx gy : Nat) (hgx : gx < 32) (hgy : gy < 32)
    (hne : lx ≠ ly ∨ gx ≠ gy)
    (tail : List Nat) (htail : ∀ w ∈ tail, w < 2 ^ 40) :
    polymodRun t (lx :: (mid ++ gx :: tail)) ≠
      polymodRun t (ly :: (mid ++ gy :: tail)) := by
  rw [polymodRun_cons, polymodRun_cons, polymodRun_append, polymodRun_append,
    polymodRun_cons, polymodRun_cons]
  apply polymodRun_ne _ _ _ _ (polymodStep_bound _ (by omega))
    (polymodStep_bound _ (by omega)) htail
  -- the two states right after the group symbol differ
  have hd0 : polymodStep t lx ^^^ polymodStep t ly = lx ^^^ ly := by
    rw [polymodStep_xor (Nat.xor_self t) (by norm_num) lx ly,
      Nat.zero_shiftLeft, Nat.zero_xor]
  by_cases hl : lx = ly
  · have hg : gx ≠ gy := by
      rcases hne with h | h
      · exact absurd hl h
      · exact h
    subst hl
    have hdiff : polymodStep (polymodRun (polymodStep t lx) mid) gx ^^^
        polymodStep (polymodRun (polymodStep t lx) mid) gy = gx ^^^ gy := by
      rw [polymodStep_xor (Nat.xor_self _) (by norm_num) gx gy,
        Nat.zero_shiftLeft, Nat.zero_xor]
    apply ne_of_xor_ne
    rw [hdiff]
    intro h0
    exact hg (Nat.xor_eq_zero.mp h0)
  · have hd0ne : lx ^^^ ly ≠ 0 := fun h0 => hl (Nat.xor_eq_zero.mp h0)
    have hd0lt : lx ^^^ ly < 32 := xor_lt32 hlx hly
    have hchain := mid_chain mid hmlen _ _ _ hd0 (by omega)
    have hdne : (lx ^^^ ly) * 32 ^ mid.length ≠ 0 := by
      have : 0 < 32 ^ mid.length := Nat.pos_pow_of_pos _ (by norm_num)
      exact Nat.mul_ne_zero hd0ne (by omega)
    have hdlt : (lx ^^^ ly) * 32 ^ mid.length < 2 ^ 35 := by
      have hp : 32 ^ mid.length ≤ 32 ^ 2 :=
        Nat.pow_le_pow_right (by norm_num) hmlen
      calc (lx ^^^ ly) * 32 ^ mid.length ≤ 31 * 32 ^ 2 := by
            apply Nat.mul_le_mul (by omega) hp
        _ < 2 ^ 35 := by norm_num
    have hdiff : polymodStep (polymodRun (polymodStep t lx) mid) gx ^^^
        polymodStep (polymodRun (polymodStep t ly) mid) gy =
        (((lx ^^^ ly) * 32 ^ mid.length) <<< 5) ^^^ (gx ^^^ gy) :=
      polymodStep_xor hchain hdlt gx gy
    apply ne_of_xor_ne
    rw [hdiff]
    exact xor_shift_small_ne hdne (xor_lt32 hgx hgy)

theorem polymodRun_mutation :
    ∀ (a : List Char) (x y : Char) (b : List Char) (s : Nat), s < 2 ^ 40 →
      x ≠ y → x ∈ inputCharset → y ∈ inputCharset →
      polymodRun s (expandSyms (a ++ x :: b) ++ pad8) ≠
        polymodRun s (expandSyms (a ++ y :: b) ++ pad8)
  | c1 :: c2 :: c3 :: a', x, y, b, s, hs, hxy, hx, hy => by
      have hg : hiSym c1 * 9 + hiSym c2 * 3 + hiSym c3 < 2 ^ 40 := by
        have h1 := hiSym_le c1; have h2 := hiSym_le c2; have h3 := hiSym_le c3
        omega
      have hl1 : lowSym c1 < 2 ^ 40 := by have := lowSym_lt c1; omega
      have hl2 : lowSym c2 < 2 ^ 40 := by have := lowSym_lt c2; omega
      have hl3 : lowSym c3 < 2 ^ 40 := by have := lowSym_lt c3; omega
      exact polymodRun_mutation a' x y b
        (polymodStep (polymodStep (polymodStep (polymodStep s (lowSym c1))
          (lowSym c2)) (lowSym c3)) (hiSym c1 * 9 + hiSym c2 * 3 + hiSym c3))
        (polymodStep_bound _ hg) hxy hx hy
  | [], x, y, [], s, hs, hxy, hx, hy => by
      have hne : lowSym x ≠ lowSym y ∨ hiSym x ≠ hiSym y := low_hi_ne hxy hx hy
      exact diverge_block s hs (lowSym x) (lowSym y) (lowSym_lt x) (lowSym_lt y)
        [] (by simp) (by simp) (hiSym x) (hiSym y)
        (by have := hiSym_le x; omega) (by have := hiSym_le y; omega)
        hne pad8 (fun w hw => by
          have : w = 0 := List.eq_of_mem_replicate hw; omega)
  | [], x, y, [b1], s, hs, hxy, hx, hy => by
      have hne0 : lowSym x ≠ lowSym y ∨ hiSym x ≠ hiSym y := low_hi_ne hxy hx hy
      have hne : lowSym x ≠ lowSym y ∨
          hiSym x * 3 + hiSym b1 ≠ hiSym y * 3 + hiSym b1 := by
        rcases hne0 with h | h
        · exact Or.inl h
        · exact Or.inr (by omega)
      exact diverge_block s hs (lowSym x) (lowSym y) (lowSym_lt x) (lowSym_lt y)
        [lowSym b1] (by intro w hw; simp at hw; subst hw; exact lowSym_lt b1)
        (by simp) (hiSym x * 3 + hiSym b1) (hiSym y * 3 + hiSym b1)
        (by have := hiSym_le x; have := hiSym_le b1; omega)
        (by have := hiSym_le y; have := hiSym_le b1; omega)
        hne pad8 (fun w hw => by
          have : w = 0 := List.eq_of_mem_replicate hw; omega)
  | [], x, y, b1 :: b2 :: rest, s, hs, hxy, hx, hy => by
      have hne0 : lowSym x ≠ lowSym y ∨ hiSym x ≠ hiSym y := low_hi_ne hxy hx hy
      have hne : lowSym x ≠ lowSym y ∨
          hiSym x * 9 + hiSym b1 * 3 + hiSym b2 ≠
            hiSym y * 9 + hiSym b1 * 3 + hiSym b2 := by
        rcases hne0 with h | h
        · exact Or.inl h
        · exact Or.inr (by omega)
      exact diverge_block s hs (lowSym x) (lowSym y) (lowSym_lt x) (lowSym_lt y)
        [lowSym b1, lowSym b2]
        (by intro w hw
            rcases List.mem_cons.mp hw with h | h
            · subst h; exact lowSym_lt b1
            · simp at h; subst h; exact lowSym_lt b2)
        (by simp) (hiSym x * 9 + hiSym b1 * 3 + hiSym b2)
        (hiSym y * 9 + hiSym b1 * 3 + hiSym b2)
        (by have := hiSym_le x; have := hiSym_le b1; have := hiSym_le b2; omega)
        (by have := hiSym_le y; have := hiSym_le b1; have := hiSym_le b2; omega)
        hne (expandSyms rest ++ pad8) (tail40 rest)
  | [c1], x, y, [], s, hs, hxy, hx, hy => by
      have hne0 : lowSym x ≠ lowSym y ∨ hiSym x ≠ hiSym y := low_hi_ne hxy hx hy
      have hne : lowSym x ≠ lowSym y ∨
          hiSym c1 * 3 + hiSym x ≠ hiSym c1 * 3 + hiSym y := by
        rcases hne0 with h | h
        · exact Or.inl h
        · exact Or.inr (by omega)
      exact diverge_block (polymodStep s (lowSym c1))
        (polymodStep_bound _ (by have := lowSym_lt c1; omega))
        (lowSym x) (lowSym y) (lowSym_lt x) (lowSym_lt y)
        [] (by simp) (by simp)
        (hiSym c1 * 3 + hiSym x) (hiSym c1 * 3 + hiSym y)
        (by have := hiSym_le c1; have := hiSym_le x; omega)
        (by have := hiSym_le c1; have := hiSym_le y; omega)
        hne pad8 (fun w hw => by
          have : w = 0 := List.eq_of_mem_replicate hw; omega)
  | [c1], x, y, b2 :: rest, s, hs, hxy, hx, hy => by
      have hne0 : lowSym x ≠ lowSym y ∨ hiSym x ≠ hiSym y := low_hi_ne hxy hx hy
      have hne : lowSym x ≠ lowSym y ∨
          hiSym c1 * 9 + hiSym x * 3 + hiSym b2 ≠
            hiSym c1 * 9 + hiSym y * 3 + hiSym b2 := by
        rcases hne0 with h | h
        · exact Or.inl h
        · exact Or.inr (by omega)
      exact diverge_block (polymodStep s (lowSym c1))
        (polymodStep_bound _ (by have := lowSym_lt c1; omega))
        (lowSym x) (lowSym y) (lowSym_lt x) (lowSym_lt y)
        [lowSym b2] (by intro w hw; simp at hw; subst hw; exact lowSym_lt b2)
        (by simp) (hiSym c1 * 9 + hiSym x * 3 + hiSym b2)
        (hiSym c1 * 9 + hiSym y * 3 + hiSym b2)
        (by have := hiSym_le c1; have := hiSym_le x; have := hiSym_le b2; omega)
        (by have := hiSym_le c1; have := hiSym_le y; have := hiSym_le b2; omega)
        hne (expandSyms rest ++ pad8) (tail40 rest)
  | [c1, c2], x, y, b, s, hs, hxy, hx, hy => by
      have hne0 : lowSym x ≠ lowSym y ∨ hiSym x ≠ hiSym y := low_hi_ne hxy hx hy
      have hne : lowSym x ≠ lowSym y ∨
          hiSym c1 * 9 + hiSym c2 * 3 + hiSym x ≠
            hiSym c1 * 9 + hiSym c2 * 3 + hiSym y := by
        rcases hne0 with h | h
        · exact Or.inl h
        · exact Or.inr (by omega)
      exact diverge_block (polymodStep (polymodStep s (lowSym c1)) (lowSym c2))
        (polymodStep_bound _ (by have := lowSym_lt c2; omega))
        (lowSym x) (lowSym y) (lowSym_lt x) (lowSym_lt y)
        [] (by simp) (by simp)
        (hiSym c1 * 9 + hiSym c2 * 3 + hiSym x)
        (hiSym c1 * 9 + hiSym c2 * 3 + hiSym y)
        (by have := hiSym_le c1; have := hiSym_le c2; have := hiSym_le x; omega)
        (by have := hiSym_le c1; have := hiSym_le c2; have := hiSym_le y; omega)
        hne (expandSyms b ++ pad8) (tail40 b)

theorem checksumWord_bound (s : List Char) : checksumWord s < 2 ^ 40 := by
  unfold checksumWord
  exact Nat.xor_lt_two_pow (polymodRun_bound _ 1 (by norm_num) (tail40 s))
    (by norm_num)

theorem digits32_inj :
    ∀ (k w1 w2 : Nat), w1 < 32 ^ k → w2 < 32 ^ k →
      (∀ j < k, w1 / 32 ^ j % 32 = w2 / 32 ^ j % 32) → w1 = w2 := by
  intro k
  induction k with
  | zero => intro w1 w2 h1 h2 _; simp at h1 h2; omega
  | succ n ih =>
      intro w1 w2 h1 h2 hj
      have h0 := hj 0 (by omega)
      simp at h0
      have hb1 : w1 / 32 < 32 ^ n := by
        rw [Nat.div_lt_iff_lt_mul (by norm_num)]
        calc w1 < 32 ^ (n + 1) := h1
          _ = 32 ^ n * 32 := by ring
      have hb2 : w2 / 32 < 32 ^ n := by
        rw [Nat.div_lt_iff_lt_mul (by norm_num)]
        calc w2 < 32 ^ (n + 1) := h2
          _ = 32 ^ n * 32 := by ring
      have hrec : w1 / 32 = w2 / 32 := by
        apply ih _ _ hb1 hb2
        intro j hjn
        have hjj := hj (j + 1) (by omega)
        rw [Nat.div_div_eq_div_mul, Nat.div_div_eq_div_mul]
        have hp : 32 * 32 ^ j = 32 ^ (j + 1) := by ring
        rw [hp]
        exact hjj
      omega

theorem window_eq_digit (w k : Nat) :
    (w >>> (5 * k)) &&& 31 = w / 32 ^ k % 32 := by
  have h31 : (31 : Nat) = 2 ^ 5 - 1 := by norm_num
  rw [h31, Nat.and_pow_two_sub_one_eq_mod, Nat.shiftRight_eq_div_pow,
    Nat.pow_mul]

theorem checksumWord_window_inj {w1 w2 : Nat} (h1 : w1 < 2 ^ 40)
    (h2 : w2 < 2 ^ 40)
    (hj : ∀ j < 8, (w1 >>> (5 * (7 - j))) &&& 31 = (w2 >>> (5 * (7 - j))) &&& 31) :
    w1 = w2 := by
  have h32 : (32 : Nat) ^ 8 = 2 ^ 40 := by norm_num
  apply digits32_inj 8 w1 w2 (by rw [h32]; exact h1) (by rw [h32]; exact h2)
  intro k hk
  have h := hj (7 - k) (by omega)
  have hke : 7 - (7 - k) = k := by omega
  rw [hke] at h
  rw [window_eq_digit, window_eq_digit] at h
  exact h

theorem getD_mem_of_lt {l : List Char} {i : Nat} (d : Char) (h : i < l.length) :
    l.getD i d ∈ l := by
  rw [List.getD_eq_getElem l d h]
  exact List.getElem_mem h

theorem checksumChars_length (s : List Char) : (checksumChars s).length = 8 := by
  simp [checksumChars]

theorem checksumCharset_length : checksumCharset.length = 32 := by decide

theorem checksumCharset_nodup : checksumCharset.Nodup := by decide

theorem checksumChars_mem (s : List Char) :
    ∀ c ∈ checksumChars s, c ∈ checksumCharset := by
  intro c hc
  unfold checksumChars at hc
  rcases List.mem_map.mp hc with ⟨j, _, rfl⟩
  apply getD_mem_of_lt
  rw [checksumCharset_length]
  have h : (checksumWord s >>> (5 * (7 - j))) &&& 31 ≤ 31 := Nat.and_le_right
  omega

theorem checksumChars_getD (s : List Char) (j : Nat) (hj : j < 8) :
    (checksumChars s).getD j ' ' =
      checksumCharset.getD ((checksumWord s >>> (5 * (7 - j))) &&& 31) 'q' := by
  unfold checksumChars
  rw [List.getD_eq_getElem _ _ (by simp [hj]), List.getElem_map,
    List.getElem_range]

theorem checksumChars_ne {s1 s2 : List Char}
    (hw : checksumWord s1 ≠ checksumWord s2) :
    checksumChars s1 ≠ checksumChars s2 := by
  intro heq
  apply hw
  apply checksumWord_window_inj (checksumWord_bound s1) (checksumWord_bound s2)
  intro j hj
  have hg := congrArg (fun l => l.getD j ' ') heq
  simp only at hg
  rw [checksumChars_getD s1 j hj, checksumChars_getD s2 j hj] at hg
  have hlt1 : (checksumWord s1 >>> (5 * (7 - j))) &&& 31 < 32 := by
    have h := Nat.and_le_right (n := checksumWord s1 >>> (5 * (7 - j))) (m := 31)
    omega
  have hlt2 : (checksumWord s2 >>> (5 * (7 - j))) &&& 31 < 32 := by
    have h := Nat.and_le_right (n := checksumWord s2 >>> (5 * (7 - j))) (m := 31)
    omega
  rw [List.getD_eq_getElem _ _ (by rw [checksumCharset_length]; exact hlt1),
    List.getD_eq_getElem _ _ (by rw [checksumCharset_length]; exact hlt2)] at hg
  exact (List.Nodup.getElem_inj_iff checksumCharset_nodup).mp hg

theorem checksum_body_mutation (a : List Char) (x y : Char) (b : List Char)
    (hxy : x ≠ y) (hx : x ∈ inputCharset) (hy : y ∈ inputCharset) :
    checksumChars (a ++ x :: b) ≠ checksumChars (a ++ y :: b) := by
  apply checksumChars_ne
  unfold checksumWord
  intro h
  have hrun : polymodRun 1 (expandSyms (a ++ x :: b) ++ pad8) =
      polymodRun 1 (expandSyms (a ++ y :: b) ++ pad8) := by
    have h1 := congrArg (fun z => z ^^^ 1) h
    simpa only [Nat.xor_assoc, Nat.xor_self, Nat.xor_zero] using h1
  exact polymodRun_mutation a x y b 1 (by norm_num) hxy hx hy hrun

theorem split_shape (D cs : List Char) (hlen : cs.length = 8) :
    splitChecksumSuffix (D ++ '#' :: cs) =
      if ∀ c ∈ cs, c ∈ checksumCharset then some (D, cs)
      else none := by
  unfold splitChecksumSuffix
  have hl : (D ++ '#' :: cs).length = D.length + 9 := by simp [hlen]
  have harith : D.length + 9 - 9 = D.length := by omega
  rw [hl, harith, if_pos (by omega : 9 ≤ D.length + 9), List.drop_left,
    List.take_left]
  simp

theorem split_on_append (D cs : List Char) (hlen : cs.length = 8)
    (hall : ∀ c ∈ cs, c ∈ checksumCharset) :
    splitChecksumSuffix (D ++ '#' :: cs) = some (D, cs) := by
  rw [split_shape D cs hlen, if_pos hall]

theorem evalChecksum_eq_of_split (expr body cs : List Char) (r : Bool)
    (h : splitChecksumSuffix expr = some (body, cs)) :
    evalChecksum expr r =
      (match descsumCreate body with
       | none => .error .checksumMismatch
       | some cs2 =>
           if cs2 = cs then .ok body else .error .checksumMismatch) := by
  unfold evalChecksum
  rw [h]

theorem evalChecksum_ok_case (expr body : List Char)
    (hsplit : splitChecksumSuffix expr = some (body, checksumChars body))
    (hbody : ∀ c ∈ body, c ∈ inputCharset) :
    evalChecksum expr true = .ok body := by
  rw [evalChecksum_eq_of_split _ _ _ _ hsplit]
  unfold descsumCreate
  rw [if_pos hbody]
  show (if checksumChars body = checksumChars body then Except.ok body
    else Except.error DescErr.checksumMismatch) = Except.ok body
  rw [if_pos rfl]

theorem evalChecksum_mismatch_case (expr body cs : List Char)
    (hsplit : splitChecksumSuffix expr = some (body, cs))
    (hbody : ∀ c ∈ body, c ∈ inputCharset)
    (hne : ¬ checksumChars body = cs) :
    evalChecksum expr true = .error .checksumMismatch := by
  rw [evalChecksum_eq_of_split _ _ _ _ hsplit]
  unfold descsumCreate
  rw [if_pos hbody]
  show (if checksumChars body = cs then Except.ok body
    else Except.error DescErr.checksumMismatch) =
    Except.error DescErr.checksumMismatch
  rw [if_neg hne]

theorem evalChecksum_badbody_case (expr body cs : List Char)
    (hsplit : splitChecksumSuffix expr = some (body, cs))
    (hbad : ¬ ∀ c ∈ body, c ∈ inputCharset) :
    evalChecksum expr true = .error .checksumMismatch := by
  rw [evalChecksum_eq_of_split _ _ _ _ hsplit]
  unfold descsumCreate
  rw [if_neg hbad]

theorem evalChecksum_nosplit_case (expr : List Char)
    (h : splitChecksumSuffix expr = none) :
    evalChecksum expr true = .error .missingChecksum := by
  unfold evalChecksum
  rw [h]
  rfl

theorem evalChecksum_roundtrip (D : List Char)
    (hD : ∀ c ∈ D, c ∈ inputCharset) :
    evalChecksum (D ++ '#' :: checksumChars D) true = .ok D :=
  evalChecksum_ok_case _ D
    (split_on_append D _ (checksumChars_length D) (checksumChars_mem D)) hD

/-- C4: for every valid descriptor body `D`, appending `#` and
`checksum(D)` passes checksum validation during construction (the
`evaluate` step accepts it and returns the bare body), while mutating any
single character of `D`, or any single character of the 8-character
checksum, makes the validation throw. -/
theorem checksum_roundtrip_and_mutation (D : List Char)
    (hD : ∀ c ∈ D, c ∈ inputCharset) :
    evalChecksum (D ++ '#' :: checksumChars D) true = .ok D ∧
    (∀ (a : List Char) (x y : Char) (b : List Char),
      D = a ++ x :: b → y ≠ x →
      ∃ e, evalChecksum ((a ++ y :: b) ++ '#' :: checksumChars D) true =
        .error e) ∧
    (∀ (u : List Char) (c0 c' : Char) (v : List Char),
      checksumChars D = u ++ c0 :: v → c' ≠ c0 →
      ∃ e, evalChecksum (D ++ '#' :: (u ++ c' :: v)) true = .error e) := by
  refine ⟨evalChecksum_roundtrip D hD, ?_, ?_⟩
  · intro a x y b hDa hyx
    have hxmem : x ∈ a ++ x :: b := List.mem_append_right a (List.mem_cons_self x b)
    have hx : x ∈ inputCharset := hD x (hDa ▸ hxmem)
    have hsplit : splitChecksumSuffix ((a ++ y :: b) ++ '#' :: checksumChars D) =
        some (a ++ y :: b, checksumChars D) :=
      split_on_append _ _ (checksumChars_length D) (checksumChars_mem D)
    refine ⟨.checksumMismatch, ?_⟩
    by_cases hy : y ∈ inputCharset
    · have hall : ∀ c ∈ a ++ y :: b, c ∈ inputCharset := by
        intro c hc
        rcases List.mem_append.mp hc with h | h
        · exact hD c (hDa ▸ List.mem_append_left _ h)
        · rcases List.mem_cons.mp h with h2 | h2
          · exact h2 ▸ hy
          · exact hD c (hDa ▸ List.mem_append_right a (List.mem_cons_of_mem x h2))
      have hne : ¬ checksumChars (a ++ y :: b) = checksumChars D := by
        intro heq
        rw [hDa] at heq
        exact checksum_body_mutation a x y b (fun h => hyx h.symm) hx hy heq.symm
      exact evalChecksum_mismatch_case _ _ _ hsplit hall hne
    · have hnall : ¬ ∀ c ∈ a ++ y :: b, c ∈ inputCharset := by
        intro hall
        exact hy (hall y (List.mem_append_right a (List.mem_cons_self y b)))
      exact evalChecksum_badbody_case _ _ _ hsplit hnall
  · intro u c0 c' v hcs hne
    have hlen8 : (u ++ c' :: v).length = 8 := by
      have h1 : (u ++ c0 :: v).length = 8 := by
        rw [← hcs]; exact checksumChars_length D
      simpa using h1
    by_cases hc : c' ∈ checksumCharset
    · refine ⟨.checksumMismatch, ?_⟩
      have hall : ∀ c ∈ u ++ c' :: v, c ∈ checksumCharset := by
        intro c hcm
        rcases List.mem_append.mp hcm with h | h
        · exact checksumChars_mem D c (by rw [hcs]; exact List.mem_append_left _ h)
        · rcases List.mem_cons.mp h with h2 | h2
          · exact h2 ▸ hc
          · exact checksumChars_mem D c (by
              rw [hcs]
              exact List.mem_append_right u (List.mem_cons_of_mem c0 h2))
      have hneq : ¬ checksumChars D = u ++ c' :: v := by
        intro heq
        rw [hcs] at heq
        have h2 : c0 :: v = c' :: v := List.append_cancel_left heq
        exact hne (List.head_eq_of_cons_eq h2).symm
      exact evalChecksum_mismatch_case _ _ _ (split_on_append D _ hlen8 hall) hD hneq
    · refine ⟨.missingChecksum, ?_⟩
      have hnone : splitChecksumSuffix (D ++ '#' :: (u ++ c' :: v)) = none := by
        rw [split_shape D _ hlen8, if_neg]
        intro hall
        exact hc (hall c' (List.mem_append_right u (List.mem_cons_self c' v)))
      exact evalChecksum_nosplit_case _ hnone

/-- Witness for C4 at the concrete body "ab": the round trip validates,
a body mutation throws, and a checksum-character mutation throws. -/
theorem checksum_roundtrip_and_mutation_witness :
    evalChecksum (("ab".toList) ++ '#' :: checksumChars ("ab".toList)) true =
      .ok ("ab".toList) ∧
    (∃ e, evalChecksum ((['a'] ++ 'c' :: []) ++ '#' ::
      checksumChars ("ab".toList)) true = .error e) ∧
    (∃ e, evalChecksum (("ab".toList) ++ '#' ::
      ([] ++ 'x' :: ("064n3a6".toList))) true = .error e) := by
  have T := checksum_roundtrip_and_mutation ("ab".toList) (by decide)
  exact ⟨T.1, T.2.1 ['a'] 'b' 'c' [] (by decide) (by decide),
    T.2.2 [] 'y' 'x' ("064n3a6".toList) (by decide) (by decide)⟩

theorem evalChecksum_not_required (expr : List Char)
    (h : splitChecksumSuffix expr = none) :
    evalChecksum expr false = .ok expr := by
  unfold evalChecksum
  rw [h]
  rfl

/-- C7: a wildcard descriptor requires an index: `evaluate` throws when
the index is omitted, non-integer or negative, and accepts a
non-negative integer index. -/
theorem evaluate_wildcard_index (expr : List Char)
    (hw : expr.contains '*' = true) (hs : splitChecksumSuffix expr = none) :
    evaluateM expr false none = .error .missingIndex ∧
    evaluateM expr false (some .nonInt) = .error .invalidIndex ∧
    (∀ i : Int, i < 0 →
      evaluateM expr false (some (.intVal i)) = .error .invalidIndex) ∧
    (∀ i : Int, 0 ≤ i →
      evaluateM expr false (some (.intVal i)) =
        .ok (replaceAllStar expr (natDigits i.toNat))) := by
  have hbase : evalChecksum expr false = .ok expr :=
    evalChecksum_not_required expr hs
  refine ⟨?_, ?_, ?_, ?_⟩
  · unfold evaluateM
    rw [hbase]
    show (if expr.contains '*' = true then
      (Except.error DescErr.missingIndex : Except DescErr (List Char))
      else Except.ok expr) = Except.error DescErr.missingIndex
    rw [if_pos hw]
  · unfold evaluateM
    rw [hbase]
    show (if expr.contains '*' = true then
      (Except.error DescErr.invalidIndex : Except DescErr (List Char))
      else Except.ok expr) = Except.error DescErr.invalidIndex
    rw [if_pos hw]
  · intro i hi
    unfold evaluateM
    rw [hbase]
    show (if expr.contains '*' = true then
      (if i < 0 then (Except.error DescErr.invalidIndex : Except DescErr (List Char))
       else Except.ok (replaceAllStar expr (natDigits i.toNat)))
      else Except.ok expr) = Except.error DescErr.invalidIndex
    rw [if_pos hw, if_pos hi]
  · intro i hi
    unfold evaluateM
    rw [hbase]
    show (if expr.contains '*' = true then
      (if i < 0 then (Except.error DescErr.invalidIndex : Except DescErr (List Char))
       else Except.ok (replaceAllStar expr (natDigits i.toNat)))
      else Except.ok expr) = Except.ok (replaceAllStar expr (natDigits i.toNat))
    rw [if_pos hw, if_neg (by omega)]

/-- Witness for C7 at the concrete wildcard expression "w(*)". -/
theorem evaluate_wildcard_index_witness :
    evaluateM ("w(*)".toList) false none = .error .missingIndex ∧
    evaluateM ("w(*)".toList) false (some (.intVal (-1))) =
      .error .invalidIndex ∧
    evaluateM ("w(*)".toList) false (some (.intVal 2)) =
      .ok (replaceAllStar ("w(*)".toList) (natDigits 2)) := by
  have T := evaluate_wildcard_index ("w(*)".toList) (by decide) (by decide)
  exact ⟨T.1, T.2.2.1 (-1) (by decide),
    by simpa using T.2.2.2 2 (by decide)⟩

theorem replaceAllStar_no_star (s : List Char) (d : List Char)
    (h : s.contains '*' = false) : replaceAllStar s d = s := by
  induction s with
  | nil => rfl
  | cons a t ih =>
      rw [List.contains_cons] at h
      have ha : ¬ a = '*' := by
        intro heq
        subst heq
        simp at h
      have ht : t.contains '*' = false := by
        rcases Bool.or_eq_false_iff.mp h with ⟨_, h2⟩
        exact h2
      unfold replaceAllStar at ih ⊢
      rw [List.map_cons, List.flatten_cons, ih ht]
      unfold starSub
      rw [if_neg ha]
      rfl

/-- C8: range substitution replaces every wildcard with the decimal
representation of the index, all wildcards in lockstep: the evaluated
body is the segment-wise substitution of the original body, and at every
non-wildcard position the bodies for index i and i+1 agree, while every
wildcard position carries exactly the digits of the index. -/
theorem wildcard_lockstep (expr : List Char) (i : Nat)
    (hs : splitChecksumSuffix expr = none) :
    evaluateM expr false (some (.intVal (Int.ofNat i))) =
      .ok ((expr.map (starSub (natDigits i))).flatten) ∧
    (∀ j (hj : j < expr.length), expr.get ⟨j, hj⟩ ≠ '*' →
      (expr.map (starSub (natDigits i))).get
          ⟨j, by rw [List.length_map]; exact hj⟩ = [expr.get ⟨j, hj⟩] ∧
      (expr.map (starSub (natDigits (i + 1)))).get
          ⟨j, by rw [List.length_map]; exact hj⟩ = [expr.get ⟨j, hj⟩]) ∧
    (∀ j (hj : j < expr.length), expr.get ⟨j, hj⟩ = '*' →
      (expr.map (starSub (natDigits i))).get
          ⟨j, by rw [List.length_map]; exact hj⟩ = natDigits i ∧
      (expr.map (starSub (natDigits (i + 1)))).get
          ⟨j, by rw [List.length_map]; exact hj⟩ = natDigits (i + 1)) := by
  have hbase : evalChecksum expr false = .ok expr :=
    evalChecksum_not_required expr hs
  refine ⟨?_, ?_, ?_⟩
  · have hnneg : ¬ (Int.ofNat i) < 0 :=
      Int.not_lt.mpr (Int.ofNat_zero_le i)
    rcases hc : expr.contains '*' with hfalse | htrue
    · unfold evaluateM
      rw [hbase]
      show (if expr.contains '*' = true then
        (if (Int.ofNat i) < 0 then
          (Except.error DescErr.invalidIndex : Except DescErr (List Char))
         else Except.ok (replaceAllStar expr (natDigits (Int.ofNat i).toNat)))
        else Except.ok expr) =
        Except.ok ((expr.map (starSub (natDigits i))).flatten)
      rw [if_neg (by rw [hc]; simp)]
      rw [show (expr.map (starSub (natDigits i))).flatten =
        replaceAllStar expr (natDigits i) from rfl]
      rw [replaceAllStar_no_star expr _ hc]
    · unfold evaluateM
      rw [hbase]
      show (if expr.contains '*' = true then
        (if (Int.ofNat i) < 0 then
          (Except.error DescErr.invalidIndex : Except DescErr (List Char))
         else Except.ok (replaceAllStar expr (natDigits (Int.ofNat i).toNat)))
        else Except.ok expr) =
        Except.ok ((expr.map (starSub (natDigits i))).flatten)
      rw [if_pos hc, if_neg hnneg]
      rfl
  · intro j hj hne
    constructor
    · rw [List.get_eq_getElem, List.get_eq_getElem, List.getElem_map]
      unfold starSub
      rw [if_neg (by rw [List.get_eq_getElem] at hne; exact hne)]
    · rw [List.get_eq_getElem, List.get_eq_getElem, List.getElem_map]
      unfold starSub
      rw [if_neg (by rw [List.get_eq_getElem] at hne; exact hne)]
  · intro j hj heq
    constructor
    · rw [List.get_eq_getElem, List.getElem_map]
      unfold starSub
      rw [if_pos (by rw [List.get_eq_getElem] at heq; exact heq)]
    · rw [List.get_eq_getElem, List.getElem_map]
      unfold starSub
      rw [if_pos (by rw [List.get_eq_getElem] at heq; exact heq)]

/-- Witness for C8 at the concrete body "a*" and index 9. -/
theorem wildcard_lockstep_witness :
    evaluateM ("a*".toList) false (some (.intVal (Int.ofNat 9))) =
      .ok ((("a*".toList).map (starSub (natDigits 9))).flatten) ∧
    (("a*".toList).map (starSub (natDigits 9))).get ⟨0, by decide⟩ = ['a'] ∧
    (("a*".toList).map (starSub (natDigits 10))).get ⟨1, by decide⟩ =
      natDigits 10 := by
  have T := wildcard_lockstep ("a*".toList) 9 (by decide)
  exact ⟨T.1, (T.2.1 0 (by decide) (by decide)).1,
    (T.2.2 1 (by decide) (by decide)).2⟩


/-- C2: a `wsh(MINISCRIPT)` or `sh(wsh(MINISCRIPT))` construction
succeeds exactly when the compiled witness script is at most 3600 bytes
and has at most 201 non-push opcodes, and otherwise throws the
resource-limit error. -/
theorem wsh_resource_limits (em : Nat → List Nat)
    (sha h160 : List Nat → List Nat) (flag : Bool) (pres : List PreimageM)
    (sg : Option (List (List Nat))) (ms : MS) :
    ((∃ st, construct em sha h160 flag pres sg (.wshE ms) = .ok st) ↔
      (encodeScript (compileMS em ms)).length ≤ 3600 ∧
        countNonPushOps (compileMS em ms) ≤ 201) ∧
    ((∃ st, construct em sha h160 flag pres sg (.shWshE ms) = .ok st) ↔
      (encodeScript (compileMS em ms)).length ≤ 3600 ∧
        countNonPushOps (compileMS em ms) ≤ 201) ∧
    ((3600 < (encodeScript (compileMS em ms)).length ∨
        201 < countNonPushOps (compileMS em ms)) →
      construct em sha h160 flag pres sg (.wshE ms) = .error .resourceLimit ∧
      construct em sha h160 flag pres sg (.shWshE ms) = .error .resourceLimit) := by
  by_cases h1 : 3600 < (encodeScript (compileMS em ms)).length
  · refine ⟨⟨?_, ?_⟩, ⟨?_, ?_⟩, ?_⟩
    · rintro ⟨st, hst⟩
      simp [construct, h1] at hst
    · intro h
      omega
    · rintro ⟨st, hst⟩
      simp [construct, h1] at hst
    · intro h
      omega
    · intro _
      constructor <;> simp [construct, h1]
  · by_cases h2 : 201 < countNonPushOps (compileMS em ms)
    · refine ⟨⟨?_, ?_⟩, ⟨?_, ?_⟩, ?_⟩
      · rintro ⟨st, hst⟩
        simp [construct, h1, h2] at hst
      · intro h
        omega
      · rintro ⟨st, hst⟩
        simp [construct, h1, h2] at hst
      · intro h
        omega
      · intro _
        constructor <;> simp [construct, h1, h2]
    · refine ⟨⟨?_, ?_⟩, ⟨?_, ?_⟩, ?_⟩
      · intro _
        omega
      · intro _
        exact ⟨{ payment := .wshP (encodeScript (compileMS em ms)),
                 miniscript := some ms,
                 witnessScript := some (encodeScript (compileMS em ms)),
                 isSegwit := some true, preimages := pres, signers := sg },
               by simp only [construct]; rw [if_neg h1, if_neg h2]⟩
      · intro _
        omega
      · intro _
        exact ⟨{ payment := .shWshP (encodeScript (compileMS em ms)),
                 miniscript := some ms,
                 witnessScript := some (encodeScript (compileMS em ms)),
                 redeemScript := some (0x00 :: 0x20 ::
                   sha (encodeScript (compileMS em ms))),
                 isSegwit := some true, preimages := pres, signers := sg },
               by simp only [construct]; rw [if_neg h1, if_neg h2]⟩
      · intro h
        omega

/-- Witness for C2: a small `pk` fragment passes both limits in both
productions. -/
theorem wsh_resource_limits_witness :
    (∃ st, construct emZero id id false [] none (.wshE (.pk 0)) = .ok st) ∧
    (∃ st, construct emZero id id false [] none (.shWshE (.pk 0)) = .ok st) := by
  have T := wsh_resource_limits emZero id id false [] none (.pk 0)
  exact ⟨T.1.mpr (by decide), T.2.1.mpr (by decide)⟩

/-- C3 counterexample: with the opt-in flag set, a compilable miniscript
whose script is within the 520-byte limit is still rejected, because the
`sh(MINISCRIPT)` branch also enforces the 201 non-push-opcode limit. -/
theorem sh_opcount_counterexample :
    (encodeScript (compileMS emZero bigMS)).length ≤ 520 ∧
    201 < countNonPushOps (compileMS emZero bigMS) ∧
    construct emZero id id true [] none (.shE bigMS) = .error .resourceLimit := by
  refine ⟨by decide, by decide, ?_⟩
  rfl

/-- C3 (amended): a bare `sh(MINISCRIPT)` construction succeeds exactly
when the top-level fragment passes the whitelist (or the caller opted
in), the compiled redeem script is at most 520 bytes, and the script has
at most 201 non-push opcodes; the whitelist rejection and the resource
bounds are otherwise enforced. -/
theorem sh_limits (em : Nat → List Nat) (sha h160 : List Nat → List Nat)
    (flag : Bool) (pres : List PreimageM) (sg : Option (List (List Nat)))
    (ms : MS) :
    ((∃ st, construct em sha h160 flag pres sg (.shE ms) = .ok st) ↔
      ((flag = true ∨ shWhitelistPass (msText ms) = true) ∧
        (encodeScript (compileMS em ms)).length ≤ 520 ∧
        countNonPushOps (compileMS em ms) ≤ 201)) ∧
    (flag = false → shWhitelistPass (msText ms) = false →
      construct em sha h160 flag pres sg (.shE ms) =
        .error .miniscriptInShDisallowed) := by
  constructor
  · by_cases hwl : flag = false ∧ shWhitelistPass (msText ms) = false
    · constructor
      · rintro ⟨st, hst⟩
        simp [construct, hwl] at hst
      · rintro ⟨hor, _, _⟩
        rcases hor with h | h
        · rw [h] at hwl
          simp at hwl
        · rw [h] at hwl
          simp at hwl
    · by_cases h1 : 520 < (encodeScript (compileMS em ms)).length
      · constructor
        · rintro ⟨st, hst⟩
          simp [construct, hwl, h1] at hst
        · intro h
          omega
      · by_cases h2 : 201 < countNonPushOps (compileMS em ms)
        · constructor
          · rintro ⟨st, hst⟩
            simp [construct, hwl, h1, h2] at hst
          · intro h
            omega
        · constructor
          · intro _
            refine ⟨?_, by omega, by omega⟩
            by_cases hf : flag = true
            · exact Or.inl hf
            · have hf2 : flag = false := by revert hf; cases flag <;> simp
              right
              by_cases hw : shWhitelistPass (msText ms) = true
              · exact hw
              · have hw2 : shWhitelistPass (msText ms) = false := by
                  revert hw; cases shWhitelistPass (msText ms) <;> simp
                exact absurd (And.intro hf2 hw2) hwl
          · intro _
            exact ⟨{ payment := .shP (encodeScript (compileMS em ms)),
                     miniscript := some ms,
                     redeemScript := some (encodeScript (compileMS em ms)),
                     isSegwit := some false, preimages := pres, signers := sg },
                   by simp only [construct]; rw [if_neg hwl, if_neg h1, if_neg h2]⟩
  · intro hf hw
    simp [construct, hf, hw]

/-- Witness for C3 (amended): `pk` under `sh` passes the whitelist and
the limits. -/
theorem sh_limits_witness :
    (∃ st, construct emZero id id false [] none (.shE (.pk 0)) = .ok st) ∧
    construct emZero id id false [] none (.shE (.or_i (.older 1) (.older 2))) =
      .error .miniscriptInShDisallowed := by
  have T1 := sh_limits emZero id id false [] none (.pk 0)
  have T2 := sh_limits emZero id id false [] none (.or_i (.older 1) (.older 2))
  exact ⟨T1.1.mpr (by decide), T2.2 rfl (by decide)⟩


theorem addrLastWins_some (o : List Nat) (p : AddrPayment)
    (hp : addrLastWins o = some p) :
    tryP2TR o = some p ∨
    (tryP2TR o = none ∧ (tryP2WSH o = some p ∨
     (tryP2WSH o = none ∧ (tryP2WPKH o = some p ∨
      (tryP2WPKH o = none ∧ (tryP2SH o = some p ∨
       (tryP2SH o = none ∧ tryP2PKH o = some p))))))) := by
  unfold addrLastWins overwrite at hp
  rcases h5 : tryP2TR o with _ | p5 <;> rw [h5] at hp
  · rcases h4 : tryP2WSH o with _ | p4 <;> rw [h4] at hp
    · rcases h3 : tryP2WPKH o with _ | p3 <;> rw [h3] at hp
      · rcases h2 : tryP2SH o with _ | p2 <;> rw [h2] at hp
        · rcases h1 : tryP2PKH o with _ | p1 <;> rw [h1] at hp
          · exact absurd hp (by simp)
          · exact Or.inr ⟨rfl, Or.inr ⟨rfl, Or.inr ⟨rfl, Or.inr ⟨rfl, hp⟩⟩⟩⟩
        · exact Or.inr ⟨rfl, Or.inr ⟨rfl, Or.inr ⟨rfl, Or.inl hp⟩⟩⟩
      · exact Or.inr ⟨rfl, Or.inr ⟨rfl, Or.inl hp⟩⟩
    · exact Or.inr ⟨rfl, Or.inl hp⟩
  · exact Or.inl hp

theorem addrLastWins_none_iff (o : List Nat) :
    addrLastWins o = none ↔
      tryP2PKH o = none ∧ tryP2SH o = none ∧ tryP2WPKH o = none ∧
        tryP2WSH o = none ∧ tryP2TR o = none := by
  unfold addrLastWins overwrite
  rcases h5 : tryP2TR o with _ | p5 <;>
    rcases h4 : tryP2WSH o with _ | p4 <;>
      rcases h3 : tryP2WPKH o with _ | p3 <;>
        rcases h2 : tryP2SH o with _ | p2 <;>
          rcases h1 : tryP2PKH o with _ | p1 <;> simp

/-- C6: the `addr(ADDRESS)` branch tries P2PKH, P2SH, P2WPKH, P2WSH and
P2TR in this fixed order, keeping the last template attempt that does not
fail; construction throws exactly when the address fails to decode or
every template attempt fails. -/
theorem addr_template_last_wins (em : Nat → List Nat)
    (sha h160 : List Nat → List Nat) (flag : Bool) (pres : List PreimageM)
    (sg : Option (List (List Nat))) (o : List Nat) :
    construct em sha h160 flag pres sg (.addrE none) = .error .invalidAddress ∧
    (∀ st, construct em sha h160 flag pres sg (.addrE (some o)) = .ok st →
      ∃ p, st.payment = .fromAddr p ∧
        (tryP2TR o = some p ∨
         (tryP2TR o = none ∧ (tryP2WSH o = some p ∨
          (tryP2WSH o = none ∧ (tryP2WPKH o = some p ∨
           (tryP2WPKH o = none ∧ (tryP2SH o = some p ∨
            (tryP2SH o = none ∧ tryP2PKH o = some p))))))))) ∧
    (construct em sha h160 flag pres sg (.addrE (some o)) =
        .error .invalidAddress ↔
      tryP2PKH o = none ∧ tryP2SH o = none ∧ tryP2WPKH o = none ∧
        tryP2WSH o = none ∧ tryP2TR o = none) := by
  refine ⟨rfl, ?_, ?_⟩
  · intro st hst
    rcases hlw : addrLastWins o with _ | p
    · simp [construct, hlw] at hst
    · refine ⟨p, ?_, addrLastWins_some o p hlw⟩
      simp [construct, hlw] at hst
      rw [← hst]
  · rw [← addrLastWins_none_iff]
    constructor
    · intro h
      rcases hlw : addrLastWins o with _ | p
      · rfl
      · simp [construct, hlw] at h
    · intro h
      simp [construct, h]

/-- Witness for C6: a P2WPKH-shaped output script is matched by exactly
the P2WPKH template, and a non-template script makes construction
throw. -/
theorem addr_template_last_wins_witness :
    (∃ p, (DescState.mk (PaymentM.fromAddr (AddrPayment.mk PayTag.p2wpkhT
          (0x00 :: 0x14 :: List.replicate 20 7))) none none none none [] none).payment =
          PaymentM.fromAddr p ∧
        (tryP2TR (0x00 :: 0x14 :: List.replicate 20 7) = some p ∨
         (tryP2TR (0x00 :: 0x14 :: List.replicate 20 7) = none ∧
          (tryP2WSH (0x00 :: 0x14 :: List.replicate 20 7) = some p ∨
           (tryP2WSH (0x00 :: 0x14 :: List.replicate 20 7) = none ∧
            (tryP2WPKH (0x00 :: 0x14 :: List.replicate 20 7) = some p ∨
             (tryP2WPKH (0x00 :: 0x14 :: List.replicate 20 7) = none ∧
              (tryP2SH (0x00 :: 0x14 :: List.replicate 20 7) = some p ∨
               (tryP2SH (0x00 :: 0x14 :: List.replicate 20 7) = none ∧
                tryP2PKH (0x00 :: 0x14 :: List.replicate 20 7) = some p))))))))) ∧
    construct emZero id id false [] none (.addrE (some [1, 2, 3])) =
      .error .invalidAddress := by
  have T := addr_template_last_wins emZero id id false [] none
    (0x00 :: 0x14 :: List.replicate 20 7)
  have T2 := addr_template_last_wins emZero id id false [] none [1, 2, 3]
  exact ⟨T.2.1 _ rfl, T2.2.2.mpr (by decide)⟩

/-- C9: whenever `updatePsbt` runs with a defined derived locktime and
does not throw, the sequence attached to the PSBT input is defined and
at most 0xfffffffe: a missing derived sequence is replaced by 0xfffffffe
and a larger derived sequence makes the update throw. -/
theorem updatePsbt_sequence_clamp (lt : Nat) (sq psbtLt : Option Nat) :
    (∀ l s, updatePsbtSeq (some lt) sq psbtLt = .ok (l, s) →
      ∃ v, s = some v ∧ v ≤ 0xfffffffe) ∧
    ((psbtLt = none ∨ psbtLt = some 0) →
      updatePsbtSeq (some lt) none psbtLt = .ok (some lt, some 0xfffffffe)) ∧
    (∀ v, sq = some v → 0xfffffffe < v → (psbtLt = none ∨ psbtLt = some 0) →
      updatePsbtSeq (some lt) sq psbtLt = .error .seqLocktimeConflict) := by
  refine ⟨?_, ?_, ?_⟩
  · intro l s hok
    rcases psbtLt with _ | pl
    · rcases sq with _ | v
      · simp [updatePsbtSeq] at hok
        exact ⟨0xfffffffe, hok.2.symm, by norm_num⟩
      · by_cases hv : 0xfffffffe < v
        · simp [updatePsbtSeq, hv] at hok
        · simp [updatePsbtSeq, hv] at hok
          exact ⟨v, hok.2.symm, by omega⟩
    · by_cases hpl : pl = 0
      · subst hpl
        rcases sq with _ | v
        · simp [updatePsbtSeq] at hok
          exact ⟨0xfffffffe, hok.2.symm, by norm_num⟩
        · by_cases hv : 0xfffffffe < v
          · simp [updatePsbtSeq, hv] at hok
          · simp [updatePsbtSeq, hv] at hok
            exact ⟨v, hok.2.symm, by omega⟩
      · simp [updatePsbtSeq, hpl] at hok
  · intro hpl
    rcases hpl with h | h <;> subst h <;> simp [updatePsbtSeq]
  · intro v hv hbig hpl
    subst hv
    rcases hpl with h | h <;> subst h <;> simp [updatePsbtSeq, hbig]

/-- Witness for C9 at locktime 500000: a missing sequence becomes
0xfffffffe and an oversized sequence throws. -/
theorem updatePsbt_sequence_clamp_witness :
    updatePsbtSeq (some 500000) none none = .ok (some 500000, some 0xfffffffe) ∧
    updatePsbtSeq (some 500000) (some 0xffffffff) none =
      .error .seqLocktimeConflict ∧
    (∃ v, (some 0xfffffffe : Option Nat) = some v ∧ v ≤ 0xfffffffe) := by
  have T := updatePsbt_sequence_clamp 500000 none none
  have T2 := updatePsbt_sequence_clamp 500000 (some 0xffffffff) none
  refine ⟨T.2.1 (Or.inl rfl), T2.2.2 0xffffffff rfl (by norm_num) (Or.inl rfl), ?_⟩
  have T3 := updatePsbt_sequence_clamp 500000 none none
  exact T3.1 (some 500000) (some 0xfffffffe) (T3.2.1 (Or.inl rfl))


theorem getTimeConstraintsM_nomini (em : Nat → List Nat) (st : DescState)
    (h : st.miniscript = none) : getTimeConstraintsM em st = .ok none := by
  unfold getTimeConstraintsM
  rw [h]

theorem getScriptSatisfactionM_nomini (em : Nat → List Nat) (st : DescState)
    (sigs : List PartialSigM) (h : st.miniscript = none) :
    getScriptSatisfactionM em st sigs = .error .noMiniscript := by
  unfold getScriptSatisfactionM
  rw [h]

theorem getSequenceM_nomini (em : Nat → List Nat) (st : DescState)
    (h : st.miniscript = none) : getSequenceM em st = .ok none := by
  unfold getSequenceM
  rw [getTimeConstraintsM_nomini em st h]
  rfl

theorem getLockTimeM_nomini (em : Nat → List Nat) (st : DescState)
    (h : st.miniscript = none) : getLockTimeM em st = .ok none := by
  unfold getLockTimeM
  rw [getTimeConstraintsM_nomini em st h]
  rfl

/-- C10: a descriptor constructed from a non-miniscript production never
stores a miniscript, so `getScriptSatisfaction` throws for any supplied
signature list while `getSequence` and `getLockTime` return undefined
without throwing. -/
theorem non_miniscript_accessors (em : Nat → List Nat)
    (sha h160 : List Nat → List Nat) (flag : Bool) (pres : List PreimageM)
    (sg : Option (List (List Nat))) (e : DescExpr)
    (he : isMiniscriptBearing e = false) (st : DescState)
    (hok : construct em sha h160 flag pres sg e = .ok st)
    (sigs : List PartialSigM) :
    st.miniscript = none ∧
    getScriptSatisfactionM em st sigs = .error .noMiniscript ∧
    getSequenceM em st = .ok none ∧
    getLockTimeM em st = .ok none := by
  have hmini : st.miniscript = none := by
    cases e with
    | addrE dec =>
        rcases dec with _ | o
        · simp [construct] at hok
        · rcases hlw : addrLastWins o with _ | p
          · simp [construct, hlw] at hok
          · simp [construct, hlw] at hok
            rw [← hok]
    | pkE k =>
        simp [construct] at hok
        rw [← hok]
    | pkhE k =>
        simp [construct] at hok
        rw [← hok]
    | shWpkhE k =>
        simp [construct] at hok
        rw [← hok]
    | wpkhE k =>
        simp [construct] at hok
        rw [← hok]
    | shWshE ms => simp [isMiniscriptBearing] at he
    | shE ms => simp [isMiniscriptBearing] at he
    | wshE ms => simp [isMiniscriptBearing] at he
  exact ⟨hmini, getScriptSatisfactionM_nomini em st sigs hmini,
    getSequenceM_nomini em st hmini, getLockTimeM_nomini em st hmini⟩

/-- Witness for C10 at a concrete `pk` descriptor. -/
theorem non_miniscript_accessors_witness :
    (DescState.mk (PaymentM.p2pkP []) none none none (some false) [] none).miniscript
      = none ∧
    getScriptSatisfactionM emZero
      (DescState.mk (PaymentM.p2pkP []) none none none (some false) [] none) [] =
        .error .noMiniscript ∧
    getSequenceM emZero
      (DescState.mk (PaymentM.p2pkP []) none none none (some false) [] none) =
        .ok none ∧
    getLockTimeM emZero
      (DescState.mk (PaymentM.p2pkP []) none none none (some false) [] none) =
        .ok none :=
  non_miniscript_accessors emZero id id false [] none (.pkE 0) rfl _ rfl []

theorem getTimeConstraintsM_mini (em : Nat → List Nat) (st : DescState)
    (ms : MS) (hms : st.miniscript = some ms) :
    getTimeConstraintsM em st =
      (match satMS em ((st.signers.getD ((msKeys ms).map em)).map
          (fun pub => PartialSigM.mk pub (List.replicate 64 0)))
          st.preimages ms with
       | none => .error .unsatisfiable
       | some (_, tc) => .ok (some tc)) := by
  unfold getTimeConstraintsM
  rw [hms]

/-- C5: whenever `getScriptSatisfaction` returns a satisfaction, the
locktime/sequence pair of the real-signature satisfaction equals the
pair derived by the constraints-only run, and `getScriptSatisfaction`
passes exactly that constraints-only pair as the `timeConstraints` of
the satisfier. -/
theorem time_constraints_consistent (em : Nat → List Nat) (st : DescState)
    (ms : MS) (hms : st.miniscript = some ms) (sigs : List PartialSigM)
    (wit : List (List Nat))
    (hok : getScriptSatisfactionM em st sigs = .ok wit) :
    ∃ tc : TC, getTimeConstraintsM em st = .ok (some tc) ∧
      getLockTimeM em st = .ok tc.nLockTime ∧
      getSequenceM em st = .ok tc.nSequence ∧
      satMS em sigs st.preimages ms = some (wit, tc) ∧
      satisfyMiniscriptM em sigs st.preimages ms (some tc) = some (wit, tc) := by
  have htc0 := getTimeConstraintsM_mini em st ms hms
  rcases hfake : satMS em ((st.signers.getD ((msKeys ms).map em)).map
      (fun pub => PartialSigM.mk pub (List.replicate 64 0)))
      st.preimages ms with _ | pairf
  · rw [hfake] at htc0
    have htc : getTimeConstraintsM em st = .error .unsatisfiable := by rw [htc0]
    have hlk : getLockTimeM em st = .error .unsatisfiable := by
      unfold getLockTimeM
      rw [htc]
      rfl
    have hss : getScriptSatisfactionM em st sigs = .error .unsatisfiable := by
      unfold getScriptSatisfactionM
      rw [hms, hlk]
      rfl
    rw [hss] at hok
    exact absurd hok (by simp)
  · rcases pairf with ⟨wf, tcf⟩
    rw [hfake] at htc0
    have htc : getTimeConstraintsM em st = .ok (some tcf) := by rw [htc0]
    have hlk : getLockTimeM em st = .ok tcf.nLockTime := by
      unfold getLockTimeM
      rw [htc]
      rfl
    have hsq : getSequenceM em st = .ok tcf.nSequence := by
      unfold getSequenceM
      rw [htc]
      rfl
    have hss : getScriptSatisfactionM em st sigs =
        (match satisfyMiniscriptM em sigs st.preimages ms (some tcf) with
         | none => .error .unsatisfiable
         | some (w, _) => .ok w) := by
      unfold getScriptSatisfactionM
      rw [hms, hlk, hsq]
      rfl
    rcases hreal : satisfyMiniscriptM em sigs st.preimages ms (some tcf)
      with _ | pairr
    · rw [hreal] at hss
      have hss2 : getScriptSatisfactionM em st sigs = .error .unsatisfiable := by
        rw [hss]
      rw [hss2] at hok
      exact absurd hok (by simp)
    · rcases pairr with ⟨wr, tcr⟩
      rw [hreal] at hss
      have hss2 : getScriptSatisfactionM em st sigs = .ok wr := by rw [hss]
      rw [hss2] at hok
      have hwr : wr = wit := by
        have h := hok
        simp at h
        exact h
      subst hwr
      have hreal2 := hreal
      unfold satisfyMiniscriptM at hreal2
      rcases hsat : satMS em sigs st.preimages ms with _ | pair0
      · rw [hsat] at hreal2
        simp at hreal2
      · rcases pair0 with ⟨w0, t0⟩
        rw [hsat] at hreal2
        have hreal3 : (if t0 = tcf then some (w0, t0) else none) =
            some (wr, tcr) := hreal2
        by_cases ht : t0 = tcf
        · rw [if_pos ht] at hreal3
          have hw0 : w0 = wr ∧ t0 = tcr := by
            have h := hreal3
            simp at h
            exact h
          refine ⟨tcf, htc, hlk, hsq, ?_, ?_⟩
          · rw [hw0.1, ht]
          · exact hreal.trans (by rw [← hw0.2, ht])
        · rw [if_neg ht] at hreal3
          exact absurd hreal3 (by simp)


/-! ## Interpreter support lemmas (claim C1) -/

theorem fromLE_natLEAux :
    ∀ (fuel n : Nat), n ≤ fuel → fromLE (natLEAux fuel n) = n := by
  intro fuel
  induction fuel with
  | zero =>
      intro n hn
      have : n = 0 := by omega
      subst this
      rfl
  | succ f ih =>
      intro n hn
      match n with
      | 0 => rfl
      | m + 1 =>
          show (m + 1) % 256 + 256 * fromLE (natLEAux f ((m + 1) / 256)) = m + 1
          rw [ih ((m + 1) / 256) (by omega)]
          omega

theorem fromLE_natLE (n : Nat) : fromLE (natLE n) = n :=
  fromLE_natLEAux n n (Nat.le_refl n)

theorem fromLE_append_zero (b : List Nat) : fromLE (b ++ [0]) = fromLE b := by
  induction b with
  | nil => rfl
  | cons a t ih =>
      show a + 256 * fromLE (t ++ [0]) = a + 256 * fromLE t
      rw [ih]

theorem fromLE_encodeNum (n : Nat) : fromLE (encodeNum n) = n := by
  unfold encodeNum
  rcases h : (natLE n).getLast? with _ | last
  · have hnil : natLE n = [] := List.getLast?_eq_none_iff.mp h
    have h0 : fromLE (natLE n) = n := fromLE_natLE n
    rw [hnil] at h0
    exact h0
  · show fromLE (if 128 ≤ last then natLE n ++ [0] else natLE n) = n
    by_cases hge : 128 ≤ last
    · rw [if_pos hge, fromLE_append_zero]
      exact fromLE_natLE n
    · rw [if_neg hge]
      exact fromLE_natLE n

theorem fromLE_eq_zero_of_truthy_false (d : List Nat)
    (h : truthy d = false) : fromLE d = 0 := by
  induction d with
  | nil => rfl
  | cons a t ih =>
      unfold truthy at h ih
      rw [List.any_cons] at h
      rcases Bool.or_eq_false_iff.mp h with ⟨h1, h2⟩
      have ha : a = 0 := by simpa using h1
      show a + 256 * fromLE t = 0
      rw [ha, ih h2]

theorem truthy_of_pos (d : List Nat) (h : 0 < fromLE d) : truthy d = true := by
  rcases ht : truthy d with hf | htt
  · exact absurd (fromLE_eq_zero_of_truthy_false d ht) (by omega)
  · rfl

theorem truthy_encodeNum (n : Nat) (h : 0 < n) : truthy (encodeNum n) = true :=
  truthy_of_pos _ (by rw [fromLE_encodeNum]; exact h)

theorem fExecB_false_of_mem {conds : List Bool} (h : false ∈ conds) :
    fExecB conds = false := by
  unfold fExecB
  rcases hall : conds.all (fun b => b) with hf | htt
  · rfl
  · rw [List.all_eq_true] at hall
    have := hall false h
    simp at this

theorem fExecB_cons_true (conds : List Bool) :
    fExecB (true :: conds) = fExecB conds := by
  unfold fExecB
  rw [List.all_cons]
  simp

theorem runOps_cons (V : List Nat → List Nat → Bool) (S : List Nat → List Nat)
    (ctx : ExecCtx) (st : ExecState) (op : Op) (ops : List Op) :
    runOps V S ctx st (op :: ops) =
      (stepOp V S ctx st op) >>= fun st2 => runOps V S ctx st2 ops := rfl

theorem runOps_cons_ok {V : List Nat → List Nat → Bool} {S : List Nat → List Nat}
    {ctx : ExecCtx} {st st1 : ExecState} {op : Op} (ops : List Op)
    (h : stepOp V S ctx st op = .ok st1) :
    runOps V S ctx st (op :: ops) = runOps V S ctx st1 ops := by
  rw [runOps_cons, h]
  rfl

theorem runOps_append_ok {V : List Nat → List Nat → Bool} {S : List Nat → List Nat}
    {ctx : ExecCtx} {st st1 : ExecState} {a : List Op} (b : List Op)
    (h : runOps V S ctx st a = .ok st1) :
    runOps V S ctx st (a ++ b) = runOps V S ctx st1 b := by
  unfold runOps at h ⊢
  rw [List.foldlM_append, h]
  rfl

theorem stepOp_push {V : List Nat → List Nat → Bool} {S : List Nat → List Nat}
    {ctx : ExecCtx} {stack : List (List Nat)} {conds : List Bool}
    (d : List Nat) (h : fExecB conds = true) :
    stepOp V S ctx ⟨stack, conds⟩ (.pushData d) = .ok ⟨d :: stack, conds⟩ := by
  simp [stepOp, h]

theorem stepOp_pushNum {V : List Nat → List Nat → Bool} {S : List Nat → List Nat}
    {ctx : ExecCtx} {stack : List (List Nat)} {conds : List Bool}
    (n : Nat) (h : fExecB conds = true) :
    stepOp V S ctx ⟨stack, conds⟩ (.pushNum n) =
      .ok ⟨encodeNum n :: stack, conds⟩ := by
  simp [stepOp, h]

theorem stepOp_checksig {V : List Nat → List Nat → Bool} {S : List Nat → List Nat}
    {ctx : ExecCtx} {stack : List (List Nat)} {conds : List Bool}
    (key sig : List Nat) (h : fExecB conds = true) :
    stepOp V S ctx ⟨key :: sig :: stack, conds⟩ .opCheckSig =
      .ok ⟨(if V key sig then [1] else []) :: stack, conds⟩ := by
  simp [stepOp, h]

theorem stepOp_verify {V : List Nat → List Nat → Bool} {S : List Nat → List Nat}
    {ctx : ExecCtx} {stack : List (List Nat)} {conds : List Bool}
    (v : List Nat) (h : fExecB conds = true) (hv : truthy v = true) :
    stepOp V S ctx ⟨v :: stack, conds⟩ .opVerify = .ok ⟨stack, conds⟩ := by
  simp [stepOp, h, hv]

theorem stepOp_csv {V : List Nat → List Nat → Bool} {S : List Nat → List Nat}
    {ctx : ExecCtx} {stack : List (List Nat)} {conds : List Bool}
    (v : List Nat) (h : fExecB conds = true) (hle : fromLE v ≤ ctx.nSequence) :
    stepOp V S ctx ⟨v :: stack, conds⟩ .opCSV = .ok ⟨v :: stack, conds⟩ := by
  simp [stepOp, h, hle]

theorem stepOp_cltv {V : List Nat → List Nat → Bool} {S : List Nat → List Nat}
    {ctx : ExecCtx} {stack : List (List Nat)} {conds : List Bool}
    (v : List Nat) (h : fExecB conds = true) (hle : fromLE v ≤ ctx.nLockTime) :
    stepOp V S ctx ⟨v :: stack, conds⟩ .opCLTV = .ok ⟨v :: stack, conds⟩ := by
  simp [stepOp, h, hle]

theorem stepOp_size {V : List Nat → List Nat → Bool} {S : List Nat → List Nat}
    {ctx : ExecCtx} {stack : List (List Nat)} {conds : List Bool}
    (v : List Nat) (h : fExecB conds = true) :
    stepOp V S ctx ⟨v :: stack, conds⟩ .opSize =
      .ok ⟨encodeNum v.length :: v :: stack, conds⟩ := by
  simp [stepOp, h]

theorem stepOp_equal {V : List Nat → List Nat → Bool} {S : List Nat → List Nat}
    {ctx : ExecCtx} {stack : List (List Nat)} {conds : List Bool}
    (a b : List Nat) (h : fExecB conds = true) :
    stepOp V S ctx ⟨a :: b :: stack, conds⟩ .opEqual =
      .ok ⟨(if a = b then [1] else []) :: stack, conds⟩ := by
  simp [stepOp, h]

theorem stepOp_equalverify {V : List Nat → List Nat → Bool}
    {S : List Nat → List Nat} {ctx : ExecCtx} {stack : List (List Nat)}
    {conds : List Bool} (a : List Nat) (h : fExecB conds = true) :
    stepOp V S ctx ⟨a :: a :: stack, conds⟩ .opEqualVerify =
      .ok ⟨stack, conds⟩ := by
  simp [stepOp, h]

theorem stepOp_sha {V : List Nat → List Nat → Bool} {S : List Nat → List Nat}
    {ctx : ExecCtx} {stack : List (List Nat)} {conds : List Bool}
    (a : List Nat) (h : fExecB conds = true) :
    stepOp V S ctx ⟨a :: stack, conds⟩ .opSha256 =
      .ok ⟨S a :: stack, conds⟩ := by
  simp [stepOp, h]

theorem stepOp_if {V : List Nat → List Nat → Bool} {S : List Nat → List Nat}
    {ctx : ExecCtx} {stack : List (List Nat)} {conds : List Bool}
    (v : List Nat) (h : fExecB conds = true) :
    stepOp V S ctx ⟨v :: stack, conds⟩ .opIf =
      .ok ⟨stack, truthy v :: conds⟩ := by
  simp [stepOp, h]

theorem stepOp_if_skip {V : List Nat → List Nat → Bool} {S : List Nat → List Nat}
    {ctx : ExecCtx} {stack : List (List Nat)} {conds : List Bool}
    (h : fExecB conds = false) :
    stepOp V S ctx ⟨stack, conds⟩ .opIf = .ok ⟨stack, false :: conds⟩ := by
  simp [stepOp, h]

theorem stepOp_else {V : List Nat → List Nat → Bool} {S : List Nat → List Nat}
    {ctx : ExecCtx} {stack : List (List Nat)} {c : Bool} {conds : List Bool} :
    stepOp V S ctx ⟨stack, c :: conds⟩ .opElse = .ok ⟨stack, (!c) :: conds⟩ := by
  simp [stepOp]

theorem stepOp_endif {V : List Nat → List Nat → Bool} {S : List Nat → List Nat}
    {ctx : ExecCtx} {stack : List (List Nat)} {c : Bool} {conds : List Bool} :
    stepOp V S ctx ⟨stack, c :: conds⟩ .opEndIf = .ok ⟨stack, conds⟩ := by
  simp [stepOp]

theorem stepOp_skip {V : List Nat → List Nat → Bool} {S : List Nat → List Nat}
    {ctx : ExecCtx} {st : ExecState} {op : Op} (h : fExecB st.conds = false)
    (hop : isNonCond op = true) :
    stepOp V S ctx st op = .ok st := by
  cases op <;> simp [isNonCond] at hop <;> simp [stepOp, h]

theorem runOps_skip_nc {V : List Nat → List Nat → Bool} {S : List Nat → List Nat}
    {ctx : ExecCtx} (l : List Op) (hnc : ∀ op ∈ l, isNonCond op = true)
    (st : ExecState) (h : fExecB st.conds = false) :
    runOps V S ctx st l = .ok st := by
  induction l with
  | nil => rfl
  | cons op t ih =>
      rw [runOps_cons_ok t (stepOp_skip h (hnc op (List.mem_cons_self _ _)))]
      exact ih (fun o ho => hnc o (List.mem_cons_of_mem _ ho))

theorem compile_skipped {V : List Nat → List Nat → Bool} {S : List Nat → List Nat}
    {ctx : ExecCtx} (em : Nat → List Nat) :
    ∀ ms (stack : List (List Nat)) (conds : List Bool), false ∈ conds →
      runOps V S ctx ⟨stack, conds⟩ (compileMS em ms) = .ok ⟨stack, conds⟩
  | .pk k, stack, conds, h => by
      apply runOps_skip_nc _ _ _ (fExecB_false_of_mem h)
      intro op hop
      rcases List.mem_cons.mp hop with h1 | h1
      · subst h1; rfl
      · rcases List.mem_cons.mp h1 with h2 | h2
        · subst h2; rfl
        · simp at h2
  | .older n, stack, conds, h => by
      apply runOps_skip_nc _ _ _ (fExecB_false_of_mem h)
      intro op hop
      rcases List.mem_cons.mp hop with h1 | h1
      · subst h1; rfl
      · rcases List.mem_cons.mp h1 with h2 | h2
        · subst h2; rfl
        · simp at h2
  | .after n, stack, conds, h => by
      apply runOps_skip_nc _ _ _ (fExecB_false_of_mem h)
      intro op hop
      rcases List.mem_cons.mp hop with h1 | h1
      · subst h1; rfl
      · rcases List.mem_cons.mp h1 with h2 | h2
        · subst h2; rfl
        · simp at h2
  | .sha256f hh, stack, conds, h => by
      apply runOps_skip_nc _ _ _ (fExecB_false_of_mem h)
      intro op hop
      simp only [compileMS, List.mem_cons, List.not_mem_nil, or_false] at hop
      rcases hop with h1 | h1 | h1 | h1 | h1 | h1 <;> subst h1 <;> rfl
  | .multi m keys, stack, conds, h => by
      apply runOps_skip_nc _ _ _ (fExecB_false_of_mem h)
      intro op hop
      rcases List.mem_cons.mp hop with h1 | h1
      · subst h1; rfl
      · rcases List.mem_append.mp h1 with h2 | h2
        · rcases List.mem_map.mp h2 with ⟨k, _, hk⟩
          rw [← hk]
          rfl
        · rcases List.mem_cons.mp h2 with h3 | h3
          · subst h3; rfl
          · rcases List.mem_cons.mp h3 with h4 | h4
            · subst h4; rfl
            · simp at h4
  | .and_v x y, stack, conds, h => by
      have hx := @compile_skipped V S ctx em x stack conds h
      have hv : runOps V S ctx ⟨stack, conds⟩ [Op.opVerify] =
          .ok ⟨stack, conds⟩ := by
        apply runOps_skip_nc _ _ _ (fExecB_false_of_mem h)
        intro op hop
        rcases List.mem_cons.mp hop with h1 | h1
        · subst h1; rfl
        · simp at h1
      have hxy : runOps V S ctx ⟨stack, conds⟩
          (compileMS em x ++ [Op.opVerify]) = .ok ⟨stack, conds⟩ := by
        rw [runOps_append_ok _ hx]
        exact hv
      show runOps V S ctx ⟨stack, conds⟩
        (compileMS em x ++ [Op.opVerify] ++ compileMS em y) = .ok ⟨stack, conds⟩
      rw [runOps_append_ok _ hxy]
      exact compile_skipped em y stack conds h
  | .or_i x y, stack, conds, h => by
      have hcomp : compileMS em (MS.or_i x y) = Op.opIf ::
          (compileMS em x ++ (Op.opElse ::
            (compileMS em y ++ [Op.opEndIf]))) := by
        simp only [compileMS]
        simp [List.cons_append, List.append_assoc]
      rw [hcomp]
      rw [runOps_cons_ok _ (stepOp_if_skip (fExecB_false_of_mem h))]
      rw [runOps_append_ok _ (compile_skipped em x stack (false :: conds)
        (List.mem_cons_self _ _))]
      rw [runOps_cons_ok _ stepOp_else]
      rw [runOps_append_ok _ (compile_skipped em y stack ((!false) :: conds)
        (List.mem_cons_of_mem _ h))]
      rw [runOps_cons_ok _ stepOp_endif]
      rfl

theorem sigForKey_valid {V : List Nat → List Nat → Bool}
    {sigs : List PartialSigM} {pub s : List Nat}
    (hsig : ∀ ps ∈ sigs, V ps.pubkey ps.signature = true)
    (h : sigForKey sigs pub = some s) : V pub s = true := by
  unfold sigForKey at h
  rcases hf : sigs.find? (fun ps => ps.pubkey = pub) with _ | ps
  · rw [hf] at h
    simp at h
  · rw [hf] at h
    simp at h
    have hmem := List.mem_of_find?_eq_some hf
    have hp := List.find?_some hf
    have hpub : ps.pubkey = pub := of_decide_eq_true hp
    rw [← h, ← hpub]
    exact hsig ps hmem

theorem preimageFor_spec {pres : List PreimageM} {h p : List Nat}
    (hfor : preimageFor pres h = some p) :
    ∃ pr ∈ pres, pr.digest = h ∧ pr.preimage = p := by
  unfold preimageFor at hfor
  rcases hf : pres.find? (fun pr => pr.digest = h) with _ | pr
  · rw [hf] at hfor
    simp at hfor
  · rw [hf] at hfor
    simp at hfor
    have hmem := List.mem_of_find?_eq_some hf
    have hp := List.find?_some hf
    have hd : pr.digest = h := of_decide_eq_true hp
    exact ⟨pr, hmem, hd, hfor⟩

theorem greedy_of_sublist (V : List Nat → List Nat → Bool) :
    ∀ (keys keysSel sigsL : List (List Nat)), keysSel.Sublist keys →
      List.Forall₂ (fun s k => V k s = true) sigsL keysSel →
      greedyMatch V sigsL keys = true := by
  intro keys
  induction keys with
  | nil =>
      intro keysSel sigsL hsub hf
      have hnil : keysSel = [] := List.sublist_nil.mp hsub
      subst hnil
      cases hf
      rfl
  | cons k ks ih =>
      intro keysSel sigsL hsub hf
      cases sigsL with
      | nil => rfl
      | cons s ss =>
          cases hf with
          | cons hR hf2 =>
              rename_i k2 sel2
              have hstep : greedyMatch V (s :: ss) (k :: ks) =
                  (if V k s then greedyMatch V ss ks
                   else greedyMatch V (s :: ss) ks) := rfl
              cases hsub with
              | cons _ h2 =>
                  rw [hstep]
                  by_cases hv : V k s = true
                  · rw [if_pos hv]
                    have hsel2 : sel2.Sublist ks :=
                      List.Sublist.trans (List.sublist_cons_self k2 sel2) h2
                    exact ih sel2 ss hsel2 hf2
                  · rw [if_neg hv]
                    exact ih (k2 :: sel2) (s :: ss) h2
                      (List.Forall₂.cons hR hf2)
              | cons₂ _ h2 =>
                  rw [hstep, if_pos hR]
                  exact ih sel2 ss h2 hf2

theorem omax_le_left {a b : Option Nat} {c : Nat}
    (h : ∀ n, omax a b = some n → n ≤ c) : ∀ n, a = some n → n ≤ c := by
  intro n ha
  subst ha
  rcases b with _ | bv
  · exact h n rfl
  · have h2 := h (max n bv) rfl
    have h3 : n ≤ max n bv := Nat.le_max_left _ _
    omega

theorem omax_le_right {a b : Option Nat} {c : Nat}
    (h : ∀ n, omax a b = some n → n ≤ c) : ∀ n, b = some n → n ≤ c := by
  intro n hb
  subst hb
  rcases a with _ | av
  · exact h n rfl
  · have h2 := h (max av n) rfl
    have h3 : n ≤ max av n := Nat.le_max_right _ _
    omega

theorem forall₂_map_map {α β γ : Type} (l : List α) (f : α → β) (g : α → γ)
    (R : β → γ → Prop) (h : ∀ x ∈ l, R (f x) (g x)) :
    List.Forall₂ R (l.map f) (l.map g) := by
  induction l with
  | nil => exact List.Forall₂.nil
  | cons a t ih =>
      exact List.Forall₂.cons (h a (List.mem_cons_self _ _))
        (ih (fun x hx => h x (List.mem_cons_of_mem _ hx)))

theorem runOps_pushKeys {V : List Nat → List Nat → Bool} {S : List Nat → List Nat}
    {ctx : ExecCtx} (em : Nat → List Nat) (keys : List Nat) :
    ∀ (stack : List (List Nat)) (conds : List Bool), fExecB conds = true →
      runOps V S ctx ⟨stack, conds⟩ (keys.map (fun k => Op.pushData (em k))) =
        .ok ⟨(keys.map em).reverse ++ stack, conds⟩ := by
  induction keys with
  | nil =>
      intro stack conds h
      rfl
  | cons k kt ih =>
      intro stack conds h
      rw [List.map_cons, runOps_cons_ok _ (stepOp_push (em k) h),
        ih (em k :: stack) conds h]
      simp [List.reverse_cons, List.append_assoc]

theorem truthy_one : truthy [1] = true := by decide

theorem truthy_nil : truthy [] = false := by decide


theorem stepOp_cms {V : List Nat → List Nat → Bool} {S : List Nat → List Nat}
    {ctx : ExecCtx} (keysB sigsB : List (List Nat)) (dummy : List Nat)
    (stack : List (List Nat)) (conds : List Bool) (h : fExecB conds = true) :
    stepOp V S ctx ⟨encodeNum keysB.length ::
        (keysB ++ encodeNum sigsB.length :: (sigsB ++ dummy :: stack)), conds⟩
      .opCheckMultiSig =
      .ok ⟨(if greedyMatch V sigsB keysB then [1] else []) :: stack, conds⟩ := by
  simp [stepOp, h, fromLE_encodeNum, List.take_left, List.drop_left,
    List.length_append, Nat.le_add_right]

theorem stepOp_cms2 {V : List Nat → List Nat → Bool} {S : List Nat → List Nat}
    {ctx : ExecCtx} (nk nm : Nat) (keysB sigsB : List (List Nat))
    (dummy : List Nat) (stack : List (List Nat)) (conds : List Bool)
    (h : fExecB conds = true) (hk : keysB.length = nk)
    (hm : sigsB.length = nm) :
    stepOp V S ctx ⟨encodeNum nk ::
        (keysB ++ encodeNum nm :: (sigsB ++ dummy :: stack)), conds⟩
      .opCheckMultiSig =
      .ok ⟨(if greedyMatch V sigsB keysB then [1] else []) :: stack, conds⟩ := by
  subst hk
  subst hm
  exact stepOp_cms keysB sigsB dummy stack conds h

theorem orExecTrue {V : List Nat → List Nat → Bool} {S : List Nat → List Nat}
    {ctx : ExecCtx} (em : Nat → List Nat) (x y : MS) (wx : List (List Nat))
    (st : List (List Nat)) (conds : List Bool) (rx : List Nat)
    (hconds : fExecB conds = true)
    (hrunx : runOps V S ctx ⟨wx ++ st, true :: conds⟩ (compileMS em x) =
      .ok ⟨rx :: st, true :: conds⟩) :
    runOps V S ctx ⟨([1] :: wx) ++ st, conds⟩ (compileMS em (MS.or_i x y)) =
      .ok ⟨rx :: st, conds⟩ := by
  have hcomp : compileMS em (MS.or_i x y) = Op.opIf ::
      (compileMS em x ++ (Op.opElse ::
        (compileMS em y ++ [Op.opEndIf]))) := by
    simp only [compileMS]
    simp [List.cons_append, List.append_assoc]
  rw [hcomp, List.cons_append]
  rw [runOps_cons_ok _ (stepOp_if [1] hconds)]
  rw [truthy_one]
  rw [runOps_append_ok _ hrunx]
  rw [runOps_cons_ok _ stepOp_else]
  rw [runOps_append_ok _ (compile_skipped em y (rx :: st) ((!true) :: conds)
    (by simp))]
  rw [runOps_cons_ok _ stepOp_endif]
  rfl

theorem orExecFalse {V : List Nat → List Nat → Bool} {S : List Nat → List Nat}
    {ctx : ExecCtx} (em : Nat → List Nat) (x y : MS) (wy : List (List Nat))
    (st : List (List Nat)) (conds : List Bool) (ry : List Nat)
    (hconds : fExecB conds = true)
    (hruny : runOps V S ctx ⟨wy ++ st, true :: conds⟩ (compileMS em y) =
      .ok ⟨ry :: st, true :: conds⟩) :
    runOps V S ctx ⟨([] :: wy) ++ st, conds⟩ (compileMS em (MS.or_i x y)) =
      .ok ⟨ry :: st, conds⟩ := by
  have hcomp : compileMS em (MS.or_i x y) = Op.opIf ::
      (compileMS em x ++ (Op.opElse ::
        (compileMS em y ++ [Op.opEndIf]))) := by
    simp only [compileMS]
    simp [List.cons_append, List.append_assoc]
  rw [hcomp, List.cons_append]
  rw [runOps_cons_ok _ (stepOp_if [] hconds)]
  rw [truthy_nil]
  rw [runOps_append_ok _ (compile_skipped em x (wy ++ st) (false :: conds)
    (List.mem_cons_self _ _))]
  rw [runOps_cons_ok _ stepOp_else]
  have hnf : ((!false) : Bool) = true := rfl
  rw [hnf]
  rw [runOps_append_ok _ hruny]
  rw [runOps_cons_ok _ stepOp_endif]
  rfl

theorem satSound (V : List Nat → List Nat → Bool) (S : List Nat → List Nat)
    (em : Nat → List Nat) (sigs : List PartialSigM) (pres : List PreimageM)
    (hsig : ∀ ps ∈ sigs, V ps.pubkey ps.signature = true)
    (hpre : ∀ pr ∈ pres, S pr.preimage = pr.digest ∧ pr.preimage.length = 32) :
    ∀ ms : MS, MSvalidB ms = true → ∀ (wit : List (List Nat)) (tc : TC),
      satMS em sigs pres ms = some (wit, tc) →
      ∀ ctx : ExecCtx,
        (∀ n, tc.nSequence = some n → n ≤ ctx.nSequence) →
        (∀ n, tc.nLockTime = some n → n ≤ ctx.nLockTime) →
        ∀ (st : List (List Nat)) (conds : List Bool), fExecB conds = true →
          ∃ res, runOps V S ctx ⟨wit ++ st, conds⟩ (compileMS em ms) =
              .ok ⟨res :: st, conds⟩ ∧ truthy res = true
  | .pk k => by
      intro _hvalid wit tc hsat ctx _hseq _hlock st conds hconds
      simp only [satMS] at hsat
      rcases hfind : sigForKey sigs (em k) with _ | s
      · rw [hfind] at hsat
        simp at hsat
      · rw [hfind] at hsat
        simp at hsat
        obtain ⟨hw, _ht⟩ := hsat
        subst hw
        have hv : V (em k) s = true := sigForKey_valid hsig hfind
        refine ⟨[1], ?_, truthy_one⟩
        have hcomp : compileMS em (MS.pk k) =
            [Op.pushData (em k), Op.opCheckSig] := by simp [compileMS]
        rw [hcomp, List.singleton_append]
        rw [runOps_cons_ok _ (stepOp_push (em k) hconds)]
        rw [runOps_cons_ok _ (stepOp_checksig (em k) s hconds)]
        rw [if_pos hv]
        rfl
  | .older n => by
      intro hvalid wit tc hsat ctx hseq _hlock st conds hconds
      simp only [satMS] at hsat
      simp at hsat
      obtain ⟨hw, ht⟩ := hsat
      subst hw
      have hn : 0 < n := by
        simp [MSvalidB] at hvalid
        omega
      have hle : n ≤ ctx.nSequence := hseq n (by rw [← ht])
      refine ⟨encodeNum n, ?_, truthy_encodeNum n hn⟩
      have hcomp : compileMS em (MS.older n) = [Op.pushNum n, Op.opCSV] := by
        simp [compileMS]
      rw [hcomp, List.nil_append]
      rw [runOps_cons_ok _ (stepOp_pushNum n hconds)]
      rw [runOps_cons_ok _ (stepOp_csv (encodeNum n) hconds
        (by rw [fromLE_encodeNum]; exact hle))]
      rfl
  | .after n => by
      intro hvalid wit tc hsat ctx _hseq hlock st conds hconds
      simp only [satMS] at hsat
      simp at hsat
      obtain ⟨hw, ht⟩ := hsat
      subst hw
      have hn : 0 < n := by
        simp [MSvalidB] at hvalid
        omega
      have hle : n ≤ ctx.nLockTime := hlock n (by rw [← ht])
      refine ⟨encodeNum n, ?_, truthy_encodeNum n hn⟩
      have hcomp : compileMS em (MS.after n) = [Op.pushNum n, Op.opCLTV] := by
        simp [compileMS]
      rw [hcomp, List.nil_append]
      rw [runOps_cons_ok _ (stepOp_pushNum n hconds)]
      rw [runOps_cons_ok _ (stepOp_cltv (encodeNum n) hconds
        (by rw [fromLE_encodeNum]; exact hle))]
      rfl
  | .sha256f hd => by
      intro _hvalid wit tc hsat ctx _hseq _hlock st conds hconds
      simp only [satMS] at hsat
      rcases hfind : preimageFor pres hd with _ | p
      · rw [hfind] at hsat
        simp at hsat
      · rw [hfind] at hsat
        simp at hsat
        obtain ⟨hw, _ht⟩ := hsat
        subst hw
        obtain ⟨pr, hmem, hdig, hpre2⟩ := preimageFor_spec hfind
        obtain ⟨hsha, hlen⟩ := hpre pr hmem
        have hSp : S p = hd := by rw [← hpre2, hsha, hdig]
        have hplen : p.length = 32 := by
          rw [hpre2] at hlen
          exact hlen
        refine ⟨[1], ?_, truthy_one⟩
        have hcomp : compileMS em (MS.sha256f hd) =
            [Op.opSize, Op.pushNum 32, Op.opEqualVerify, Op.opSha256,
             Op.pushData hd, Op.opEqual] := by simp [compileMS]
        rw [hcomp, List.singleton_append]
        rw [runOps_cons_ok _ (stepOp_size p hconds)]
        rw [hplen]
        rw [runOps_cons_ok _ (stepOp_pushNum 32 hconds)]
        rw [runOps_cons_ok _ (stepOp_equalverify (encodeNum 32) hconds)]
        rw [runOps_cons_ok _ (stepOp_sha p hconds)]
        rw [hSp]
        rw [runOps_cons_ok _ (stepOp_push hd hconds)]
        rw [runOps_cons_ok _ (stepOp_equal hd hd hconds)]
        rw [if_pos rfl]
        rfl
  | .and_v x y => by
      intro hvalid wit tc hsat ctx hseq hlock st conds hconds
      simp only [satMS] at hsat
      rcases hx : satMS em sigs pres x with _ | px
      · rw [hx] at hsat
        simp at hsat
      · rcases px with ⟨wx, tx⟩
        rcases hy : satMS em sigs pres y with _ | py
        · rw [hx, hy] at hsat
          simp at hsat
        · rcases py with ⟨wy, ty⟩
          rw [hx, hy] at hsat
          simp at hsat
          obtain ⟨hw, ht⟩ := hsat
          subst hw
          subst ht
          have hvx : MSvalidB x = true := by
            simp [MSvalidB, Bool.and_eq_true] at hvalid
            exact hvalid.1
          have hvy : MSvalidB y = true := by
            simp [MSvalidB, Bool.and_eq_true] at hvalid
            exact hvalid.2
          have hseqx : ∀ n, tx.nSequence = some n → n ≤ ctx.nSequence :=
            omax_le_left (fun n hn => hseq n hn)
          have hseqy : ∀ n, ty.nSequence = some n → n ≤ ctx.nSequence :=
            omax_le_right (fun n hn => hseq n hn)
          have hlockx : ∀ n, tx.nLockTime = some n → n ≤ ctx.nLockTime :=
            omax_le_left (fun n hn => hlock n hn)
          have hlocky : ∀ n, ty.nLockTime = some n → n ≤ ctx.nLockTime :=
            omax_le_right (fun n hn => hlock n hn)
          obtain ⟨rx, hrunx, htrx⟩ := satSound V S em sigs pres hsig hpre x hvx
            wx tx hx ctx hseqx hlockx (wy ++ st) conds hconds
          obtain ⟨ry, hruny, htry⟩ := satSound V S em sigs pres hsig hpre y hvy
            wy ty hy ctx hseqy hlocky st conds hconds
          refine ⟨ry, ?_, htry⟩
          have hcomp : compileMS em (MS.and_v x y) =
              compileMS em x ++ (Op.opVerify :: compileMS em y) := by
            simp only [compileMS]
            simp [List.append_assoc]
          rw [hcomp, List.append_assoc]
          rw [runOps_append_ok _ hrunx]
          rw [runOps_cons_ok _ (stepOp_verify rx hconds htrx)]
          exact hruny
  | .or_i x y => by
      intro hvalid wit tc hsat ctx hseq hlock st conds hconds
      have hvx : MSvalidB x = true := by
        simp [MSvalidB, Bool.and_eq_true] at hvalid
        exact hvalid.1
      have hvy : MSvalidB y = true := by
        simp [MSvalidB, Bool.and_eq_true] at hvalid
        exact hvalid.2
      have hconds2 : fExecB (true :: conds) = true := by
        rw [fExecB_cons_true]
        exact hconds
      simp only [satMS] at hsat
      rcases hx : satMS em sigs pres x with _ | px
      · rcases hy : satMS em sigs pres y with _ | py
        · rw [hx, hy] at hsat
          simp at hsat
        · rcases py with ⟨wy, ty⟩
          rw [hx, hy] at hsat
          simp at hsat
          obtain ⟨hw, ht⟩ := hsat
          subst hw
          subst ht
          obtain ⟨ry, hruny, htry⟩ := satSound V S em sigs pres hsig hpre y hvy
            wy _ hy ctx hseq hlock st (true :: conds) hconds2
          exact ⟨ry, orExecFalse em x y wy st conds ry hconds hruny, htry⟩
      · rcases px with ⟨wx, tx⟩
        rcases hy : satMS em sigs pres y with _ | py
        · rw [hx, hy] at hsat
          simp at hsat
          obtain ⟨hw, ht⟩ := hsat
          subst hw
          subst ht
          obtain ⟨rx, hrunx, htrx⟩ := satSound V S em sigs pres hsig hpre x hvx
            wx _ hx ctx hseq hlock st (true :: conds) hconds2
          exact ⟨rx, orExecTrue em x y wx st conds rx hconds hrunx, htrx⟩
        · rcases py with ⟨wy, ty⟩
          rw [hx, hy] at hsat
          by_cases hww : witWeight wx ≤ witWeight wy
          · simp [hww] at hsat
            obtain ⟨hw, ht⟩ := hsat
            subst hw
            subst ht
            obtain ⟨rx, hrunx, htrx⟩ := satSound V S em sigs pres hsig hpre x
              hvx wx _ hx ctx hseq hlock st (true :: conds) hconds2
            exact ⟨rx, orExecTrue em x y wx st conds rx hconds hrunx, htrx⟩
          · simp [hww] at hsat
            obtain ⟨hw, ht⟩ := hsat
            subst hw
            subst ht
            obtain ⟨ry, hruny, htry⟩ := satSound V S em sigs pres hsig hpre y
              hvy wy _ hy ctx hseq hlock st (true :: conds) hconds2
            exact ⟨ry, orExecFalse em x y wy st conds ry hconds hruny, htry⟩
  | .multi m keys => by
      intro _hvalid wit tc hsat ctx _hseq _hlock st conds hconds
      simp only [satMS] at hsat
      by_cases hm : m ≤ (keys.filter
          (fun k => (sigForKey sigs (em k)).isSome)).length
      · rw [if_pos hm] at hsat
        simp at hsat
        obtain ⟨hw, _ht⟩ := hsat
        subst hw
        set avail := keys.filter (fun k => (sigForKey sigs (em k)).isSome)
          with havail
        have hsub : (avail.take m).Sublist keys := by
          rw [havail]
          exact List.Sublist.trans (List.take_sublist _ _)
            (List.filter_sublist _)
        have hallv : ∀ k ∈ (avail.take m).reverse,
            V (em k) ((sigForKey sigs (em k)).getD []) = true := by
          intro k hk
          rw [List.mem_reverse] at hk
          have hk2 : k ∈ avail := List.mem_of_mem_take hk
          rw [havail] at hk2
          obtain ⟨_, hp⟩ := List.mem_filter.mp hk2
          rcases hfk : sigForKey sigs (em k) with _ | s
          · rw [hfk] at hp
            simp at hp
          · exact sigForKey_valid hsig hfk
        have hf2 : List.Forall₂ (fun s k => V k s = true)
            ((avail.take m).reverse.map
              (fun k => (sigForKey sigs (em k)).getD []))
            ((avail.take m).reverse.map em) :=
          forall₂_map_map _ _ _ _ hallv
        have hgreedy : greedyMatch V
            (((avail.take m).map
              (fun k => (sigForKey sigs (em k)).getD [])).reverse)
            ((keys.map em).reverse) = true := by
          rw [← List.map_reverse, ← List.map_reverse]
          exact greedy_of_sublist V _ ((avail.take m).reverse.map em) _
            (List.Sublist.map em (List.Sublist.reverse hsub)) hf2
        rw [List.map_take] at hgreedy
        have hslen : ((List.take m (List.map
            (fun k => (sigForKey sigs (em k)).getD []) avail)).reverse).length
            = m := by
          rw [List.length_reverse, List.length_take, List.length_map]
          omega
        have hklen : ((keys.map em).reverse).length = keys.length := by
          rw [List.length_reverse, List.length_map]
        refine ⟨[1], ?_, truthy_one⟩
        have hcomp : compileMS em (MS.multi m keys) = Op.pushNum m ::
            ((keys.map (fun k => Op.pushData (em k))) ++
              (Op.pushNum keys.length :: [Op.opCheckMultiSig])) := by
          simp only [compileMS]
          simp [List.append_assoc]
        rw [hcomp]
        rw [List.append_assoc, List.singleton_append]
        rw [runOps_cons_ok _ (stepOp_pushNum m hconds)]
        rw [runOps_append_ok _ (runOps_pushKeys em keys _ conds hconds)]
        rw [runOps_cons_ok _ (stepOp_pushNum keys.length hconds)]
        rw [runOps_cons_ok _ (stepOp_cms2 keys.length m ((keys.map em).reverse)
          ((List.take m (List.map
            (fun k => (sigForKey sigs (em k)).getD []) avail)).reverse)
          [] st conds hconds hklen hslen)]
        rw [if_pos hgreedy]
        rfl
      · rw [if_neg hm] at hsat
        simp at hsat


/-- C1: for every miniscript, signature supply and preimage supply, if the
satisfier (`satisfyMiniscript`, as called by `getScriptSatisfaction`) returns
a witness rather than an incomplete result, then executing that witness
against the script compiled from the same miniscript and expansion map by the
reference interpreter evaluates to success, in any transaction context meeting
the returned locktime/sequence constraints (in particular the minimal one). -/
theorem satisfaction_sound (V : List Nat → List Nat → Bool)
    (S : List Nat → List Nat) (em : Nat → List Nat)
    (sigs : List PartialSigM) (pres : List PreimageM) (ms : MS)
    (tcOpt : Option TC) (wit : List (List Nat)) (tc : TC)
    (hsig : ∀ ps ∈ sigs, V ps.pubkey ps.signature = true)
    (hpre : ∀ pr ∈ pres, S pr.preimage = pr.digest ∧ pr.preimage.length = 32)
    (hvalid : MSvalidB ms = true)
    (hsat : satisfyMiniscriptM em sigs pres ms tcOpt = some (wit, tc)) :
    scriptSuccess V S
      (ExecCtx.mk (tc.nSequence.getD 0) (tc.nLockTime.getD 0))
      (compileMS em ms) wit = true := by
  unfold satisfyMiniscriptM at hsat
  rcases hms : satMS em sigs pres ms with _ | p
  · rw [hms] at hsat
    simp at hsat
  · rcases p with ⟨w0, t0⟩
    rw [hms] at hsat
    have hwt : w0 = wit ∧ t0 = tc := by
      rcases tcOpt with _ | tc0
      · simp at hsat
        exact hsat
      · by_cases he : t0 = tc0
        · subst he
          simp at hsat
          exact hsat
        · simp [he] at hsat
    obtain ⟨hw, ht⟩ := hwt
    rw [hw, ht] at hms
    obtain ⟨res, hrun, htr⟩ := satSound V S em sigs pres hsig hpre ms hvalid
      wit tc hms
      (ExecCtx.mk (tc.nSequence.getD 0) (tc.nLockTime.getD 0))
      (fun n hn => by rw [hn]; exact Nat.le_refl n)
      (fun n hn => by rw [hn]; exact Nat.le_refl n)
      [] [] rfl
    rw [List.append_nil] at hrun
    unfold scriptSuccess
    rw [hrun]
    exact htr

/-- Closed witness for `satisfaction_sound`: the miniscript
`and_v(pk(0), older(5))` with key 0 expanded to `[2]`, one matching
signature and no preimages. -/
theorem satisfaction_sound_witness :
    scriptSuccess (fun pk sg => decide (pk = [2] ∧ sg = [9])) (fun p => p)
      (ExecCtx.mk (((TC.mk none (some 5)).nSequence).getD 0)
        (((TC.mk none (some 5)).nLockTime).getD 0))
      (compileMS (fun _ => [2]) (MS.and_v (MS.pk 0) (MS.older 5)))
      [[9]] = true :=
  satisfaction_sound (fun pk sg => decide (pk = [2] ∧ sg = [9])) (fun p => p)
    (fun _ => [2]) [PartialSigM.mk [2] [9]] []
    (MS.and_v (MS.pk 0) (MS.older 5)) none [[9]] (TC.mk none (some 5))
    (by
      intro ps hps
      rw [List.mem_singleton] at hps
      subst hps
      rfl)
    (by
      intro pr hpr
      exact absurd hpr (List.not_mem_nil pr))
    (by decide)
    rfl

/-- Closed witness for `time_constraints_consistent`: a wsh descriptor state
holding the miniscript `pk(0)` with key 0 expanded to `[2]`, satisfied by one
real signature. -/
theorem time_constraints_consistent_witness :
    ∃ tc : TC, getTimeConstraintsM (fun _ => [2])
        (DescState.mk (PaymentM.wshP []) (some (MS.pk 0)) none none none
          [] none) = .ok (some tc) ∧
      getLockTimeM (fun _ => [2])
        (DescState.mk (PaymentM.wshP []) (some (MS.pk 0)) none none none
          [] none) = .ok tc.nLockTime ∧
      getSequenceM (fun _ => [2])
        (DescState.mk (PaymentM.wshP []) (some (MS.pk 0)) none none none
          [] none) = .ok tc.nSequence ∧
      satMS (fun _ => [2]) [PartialSigM.mk [2] [9]]
        (DescState.mk (PaymentM.wshP []) (some (MS.pk 0)) none none none
          [] none).preimages (MS.pk 0) = some ([[9]], tc) ∧
      satisfyMiniscriptM (fun _ => [2]) [PartialSigM.mk [2] [9]]
        (DescState.mk (PaymentM.wshP []) (some (MS.pk 0)) none none none
          [] none).preimages (MS.pk 0) (some tc) = some ([[9]], tc) :=
  time_constraints_consistent (fun _ => [2])
    (DescState.mk (PaymentM.wshP []) (some (MS.pk 0)) none none none [] none)
    (MS.pk 0) rfl [PartialSigM.mk [2] [9]] [[9]] rfl

end Desc
